import Mathlib

/-!
# Verification of the meddler field-metadata / value-conversion core

A shallow embedding of the `meddler` library (files `sqlscan.go` and
`meddler.go` of github.com/russross/meddler, plus the historical
`sqlmarshal` variants kept in the repository) together with proofs about
the claims of its specification.

Modelling conventions:
* Go `reflect.Type` values are modelled only as deeply as `getFields`
  inspects them: a destination type is a pointer to a struct (with a field
  list), a pointer to a non-struct, or a non-pointer; a struct field keeps
  its name, its `PkgPath` (empty ⇔ exported), its raw `meddler:"..."` tag
  value, and the shape of its type (`FType`).
* `time.Time` is modelled as an instant (an integer) plus a location tag;
  `UTC()`/`Local()` change only the location, `IsZero` tests the zero
  instant, exactly the operations the library uses.
* Go `float64`/`complex128` fields are modelled with exact rationals: the
  only operations the library performs on them are the comparison with
  zero and verbatim copying, which the model preserves.
* Fallible Go functions returning `(T, error)` become `Except String T`;
  the distinguished `sql.ErrNoRows` sentinel gets its own constructor in
  `MErr`.
* The global handler registry is passed explicitly as a function
  `String → Option Meddler`; `builtinRegistry` is the state installed by
  `init()` in `meddler.go`.
-/

namespace MeddlerSpec

/-- A time-zone location as far as the library distinguishes them:
`time.Location` values other than UTC/Local are never produced by the code
under study. -/
inductive Loc
  | utc
  | lcl
  deriving DecidableEq, Repr

/-- Model of Go `time.Time`: an instant plus a location.  `UTC()`/`Local()`
re-tag the location and keep the instant; `IsZero` holds exactly for the
zero instant (January 1, year 1 in Go, instant `0` here). -/
structure GoTime where
  instant : Int
  loc : Loc
  deriving DecidableEq, Repr

/-- `t.UTC()`. -/
def GoTime.toUTC (t : GoTime) : GoTime := ⟨t.instant, .utc⟩

/-- `t.Local()`. -/
def GoTime.toLocal (t : GoTime) : GoTime := ⟨t.instant, .lcl⟩

/-- `t.IsZero()`. -/
def GoTime.isZero (t : GoTime) : Bool := t.instant == 0

/-- The zero `time.Time{}` (its `Location()` is UTC). -/
def zeroTime : GoTime := ⟨0, .utc⟩

/-- A dynamic Go value as stored in a struct field, as deep as the handler
hooks inspect it.  `vptr` is a pointer of any type other than
`*time.Time` (the hooks only test it for `nil`); `vother` stands for
values of types none of the hooks understand (slices, maps, other
structs). -/
inductive Val
  | vint (i : Int)
  | vuint (n : Nat)
  | vfloat (q : ℚ)
  | vcplx (re im : ℚ)
  | vstr (s : String)
  | vtime (t : GoTime)
  | vtimeRef (p : Option GoTime)
  | vptr (isNil : Bool)
  | vother (k : Nat)
  deriving DecidableEq, Repr

/-- `reflect.Zero(typeOf v)`: the zero value of `v`'s type. -/
def Val.zeroOf : Val → Val
  | .vint _ => .vint 0
  | .vuint _ => .vuint 0
  | .vfloat _ => .vfloat 0
  | .vcplx _ _ => .vcplx 0 0
  | .vstr _ => .vstr ""
  | .vtime _ => .vtime zeroTime
  | .vtimeRef _ => .vtimeRef none
  | .vptr _ => .vptr true
  | .vother _ => .vother 0

/-- The shape of a struct field's type, as deep as `getFields` and the
handlers inspect it.  `ftime` is `time.Time` (Go kind `Struct`),
`fptrTime` is `*time.Time`, `fptr` any other pointer type, `fother` any
other kind (slice, map, struct, bool, ...). -/
inductive FType
  | fint | fint8 | fint16 | fint32 | fint64
  | fuint | fuint8 | fuint16 | fuint32 | fuint64
  | ffloat32 | ffloat64
  | fcplx64 | fcplx128
  | fstring
  | ftime
  | fptrTime
  | fptr
  | fother
  deriving DecidableEq, Repr

/-- `f.Type.Kind()` is one of `reflect.Int..reflect.Int64` (the switch in
`getFields` guarding the `pk` marker). -/
def FType.isIntKind : FType → Bool
  | .fint | .fint8 | .fint16 | .fint32 | .fint64 => true
  | _ => false

/-- `f.Type.Kind() == reflect.Ptr`. -/
def FType.isPtrKind : FType → Bool
  | .fptrTime | .fptr => true
  | _ => false

/-- The zero value a fresh field of this type holds (`reflect.New`). -/
def FType.zeroVal : FType → Val
  | .fint | .fint8 | .fint16 | .fint32 | .fint64 => .vint 0
  | .fuint | .fuint8 | .fuint16 | .fuint32 | .fuint64 => .vuint 0
  | .ffloat32 | .ffloat64 => .vfloat 0
  | .fcplx64 | .fcplx128 => .vcplx 0 0
  | .fstring => .vstr ""
  | .ftime => .vtime zeroTime
  | .fptrTime => .vtimeRef none
  | .fptr => .vptr true
  | .fother => .vother 0

/-- One declared struct field: its name, its `PkgPath` (`""` ⇔ exported),
the value of its `meddler:"..."` tag, and its type shape. -/
structure GoField where
  name : String
  pkgPath : String
  tag : String
  typ : FType
  deriving DecidableEq, Repr

/-- A destination type descriptor, as deep as `getFields` looks:
`dstType.Kind()` and, for pointers, `dstType.Elem().Kind()` together with
the declared field list of the pointed-to struct. -/
inductive GoType
  | ptrToStruct (fields : List GoField)
  | ptrToNonStruct
  | nonPtr
  deriving DecidableEq, Repr

/-- A registered conversion handler (`Meddler` in `meddler.go`).  The
built-in handlers are the only inhabitants the claims need; `timeMed z l`
is `TimeMeddler{ZeroIsNull: z, Local: l}`. -/
inductive Meddler
  | identity
  | timeMed (zeroIsNull localTime : Bool)
  | zeroIsNull
  deriving DecidableEq, Repr

/-- The registry contents installed by `init()` in `meddler.go`. -/
def builtinRegistry : String → Option Meddler := fun n =>
  if n = "localtime" then some (.timeMed false true)
  else if n = "localtimez" then some (.timeMed true true)
  else if n = "utctime" then some (.timeMed false false)
  else if n = "utctimez" then some (.timeMed true false)
  else if n = "zeroisnull" then some .zeroIsNull
  else if n = "identity" then some .identity
  else none

/-- Helper of `splitComma`: splits the remaining characters, `acc` holding
the piece read so far. -/
def splitCommaAux : List Char → List Char → List String
  | [], acc => [String.mk acc]
  | c :: cs, acc =>
    if c = ',' then String.mk acc :: splitCommaAux cs []
    else splitCommaAux cs (acc ++ [c])

/-- Go `strings.Split(tag, ",")`.  (Implemented over the character list —
it agrees with `String.splitOn` everywhere but, unlike it, evaluates by
kernel reduction; like Go's `Split`, it never returns an empty list:
splitting the empty string yields `[""]`.) -/
def splitComma (s : String) : List String := splitCommaAux s.data []

/-- What a `PreRead` hook hands to `rows.Scan` for one column: either the
field's own address (`direct`: the scan writes straight into the field) or
a freshly allocated nullable wrapper cell (`wrapped`: `&tgt` for the
zero-is-null time handler, `reflect.New(...)` for the zero-is-null scalar
handler; the driver stores `nil` in it for a NULL column). -/
inductive ScanTarget
  | direct
  | wrapped
  deriving DecidableEq, Repr

/-- `PreRead` of the built-in handlers (`meddler.go`).  The argument is the
current value of the field whose address Go passes in. -/
def Meddler.preRead : Meddler → Val → Except String ScanTarget
  | .identity, _ => .ok .direct
  | .timeMed z _, .vtime _ =>
      if z then .ok .wrapped else .ok .direct
  | .timeMed z _, .vtimeRef _ =>
      if z then
        .error "sqlscan.TimeMeddler cannot be used on a *time.Time field, only time.Time"
      else .ok .direct
  | .timeMed _ _, _ => .error "sqlscan.TimeMeddler.PreRead: unknown struct field type"
  | .zeroIsNull, _ => .ok .wrapped

/-- `PostRead` of the built-in handlers (`meddler.go`).  `fv` is the value
of the field after the driver's `Scan` ran (for `direct` targets the scan
already overwrote the field, and the hook reads it back through the
aliased `scanTarget`); `w` is the content of the nullable wrapper cell for
`wrapped` targets (`none` ⇔ the column was NULL) and is ignored otherwise.
Returns the final field value. -/
def Meddler.postRead : Meddler → Val → Option Val → Except String Val
  | .identity, fv, _ => .ok fv
  | .timeMed z l, .vtime tv, w =>
      if z then
        match w with
        | none => .ok (.vtime zeroTime)
        | some (.vtime t) => .ok (.vtime (if l then t.toLocal else t.toUTC))
        | some _ => .error "sqlscan.TimeMeddler.PostRead: scan target type assertion failed"
      else
        .ok (.vtime (if l then tv.toLocal else tv.toUTC))
  | .timeMed z l, .vtimeRef p, _ =>
      if z then
        .error "sqlscan TimeMeddler cannot be used on a *time.Time field, only time.Time"
      else
        match p with
        | none => .ok (.vtimeRef none)
        | some t => .ok (.vtimeRef (some (if l then t.toLocal else t.toUTC)))
  | .timeMed _ _, _, _ => .error "sqlscan.TimeMeddler.PostRead: unknown struct field type"
  | .zeroIsNull, fv, w =>
      match w with
      | none => .ok (Val.zeroOf fv)
      | some v => .ok v

/-- `PreWrite` of the built-in handlers (`meddler.go`).  The result is the
value bound into the outgoing statement, `none` standing for SQL NULL. -/
def Meddler.preWrite : Meddler → Val → Except String (Option Val)
  | .identity, v => .ok (some v)
  | .timeMed z _, .vtime t =>
      if z && t.isZero then .ok none else .ok (some (.vtime t.toUTC))
  | .timeMed z _, .vtimeRef p =>
      match p with
      | none => .ok none
      | some t => if z && t.isZero then .ok none else .ok (some (.vtime t.toUTC))
  | .timeMed _ _, _ => .error "sqlscan.TimeMeddler.PreWrite: unknown struct field type"
  | .zeroIsNull, v =>
      match v with
      | .vint i => if i = 0 then .ok none else .ok (some v)
      | .vuint n => if n = 0 then .ok none else .ok (some v)
      | .vfloat q => if q = 0 then .ok none else .ok (some v)
      | .vcplx re im => if re = 0 ∧ im = 0 then .ok none else .ok (some v)
      | .vstr s => if s = "" then .ok none else .ok (some v)
      | _ => .error "ZeroIsNullMeddler.PreWrite: unknown struct field type"

/-- One entry of the derived metadata (`structField` in `sqlscan.go`).
`meddler` is an `Option` because the Go interface field is nil when
`"identity"` happens to be absent from the registry. -/
structure StructField where
  column : String
  index : Nat
  primaryKey : Bool
  meddler : Option Meddler
  deriving DecidableEq, Repr

/-- Derived Type Metadata (`structData` in `sqlscan.go`).  The Go
`map[string]*structField` is modelled as an association list; `getFields`
only inserts keys it has just checked to be absent, so lookup order is
immaterial. -/
structure StructData where
  columns : List String
  fields : List (String × StructField)
  pk : String
  deriving DecidableEq, Repr

/-- Lookup in the modelled `map[string]*structField`. -/
def findField : List (String × StructField) → String → Option StructField
  | [], _ => none
  | (k, v) :: rest, name => if k = name then some v else findField rest name

/-- The directive loop of `getFields` (`for j := 1; j < len(tag); j++` in
`sqlscan.go`): processes the tokens after the column-name position of one
field's annotation, threading the primary-key column found so far
(`data.pk`) and the field's handler.  `fName` is the declared field name
(used in the error messages), `colName` the resolved column name, `ftyp`
the field's type shape. -/
def tagLoop (reg : String → Option Meddler) (fName colName : String) (ftyp : FType) :
    List String → String → Option Meddler → Except String (String × Option Meddler)
  | [], pk, med => .ok (pk, med)
  | tok :: rest, pk, med =>
    if tok = "pk" then
      if ftyp.isPtrKind then
        .error ("meddler found field " ++ fName ++
          " which is marked as the primary key but is a pointer")
      else if !ftyp.isIntKind then
        .error ("meddler found field " ++ fName ++
          " which is marked as the primary key, but is not an integer type")
      else if pk ≠ "" then
        .error ("meddler found field " ++ fName ++
          " which is marked as the primary key, but a primary key field was already found")
      else
        tagLoop reg fName colName ftyp rest colName med
    else
      match reg tok with
      | some m => tagLoop reg fName colName ftyp rest pk (some m)
      | none =>
        .error ("meddler found field " ++ fName ++ " with meddler " ++ tok ++
          ", but that meddler is not registered")

/-- The field loop of `getFields` (`for i := 0; i < structType.NumField()`),
accumulating the metadata built so far in `data`. -/
def fieldsLoop (reg : String → Option Meddler) :
    List GoField → Nat → StructData → Except String StructData
  | [], _, data => .ok data
  | f :: rest, i, data =>
    -- skip non-exported fields
    if f.pkgPath ≠ "" then fieldsLoop reg rest (i + 1) data
    else
      -- examine the tag for metadata; strings.Split never yields an empty list
      let tag := splitComma f.tag
      let t0 := tag.headD ""
      -- was this field marked for skipping?
      if t0 = "-" then fieldsLoop reg rest (i + 1) data
      else
        -- default to the field name; the tag can override it
        let name := if t0 ≠ "" then t0 else f.name
        match tagLoop reg f.name name f.typ (tag.drop 1) data.pk (reg "identity") with
        | .error e => .error e
        | .ok (pk', med) =>
          if (findField data.fields name).isSome then
            .error ("meddler found multiple fields for column " ++ name)
          else
            fieldsLoop reg rest (i + 1)
              ⟨data.columns ++ [name],
               data.fields ++ [(name, ⟨name, i, name == pk', med⟩)],
               pk'⟩

/-- `getFields` of `sqlscan.go` minus the cache consultation (the cache is
modelled separately by `getFieldsCached`). -/
def getFields (reg : String → Option Meddler) : GoType → Except String StructData
  | .nonPtr => .error "meddler called with non-pointer destination"
  | .ptrToNonStruct => .error "meddler called with pointer to non-struct"
  | .ptrToStruct fields => fieldsLoop reg fields 0 ⟨[], [], ""⟩

/-- Cache lookup (`fieldsCache[dstType]`). -/
def lookupCache : List (GoType × StructData) → GoType → Option StructData
  | [], _ => none
  | (t, d) :: rest, key => if t = key then some d else lookupCache rest key

/-- `getFields` with its memoization (`fieldsCache` in `sqlscan.go`),
returning the result together with the updated cache: a hit returns the
stored metadata, a miss derives it and stores it only on success. -/
def getFieldsCached (reg : String → Option Meddler)
    (cache : List (GoType × StructData)) (dstType : GoType) :
    Except String StructData × List (GoType × StructData) :=
  match lookupCache cache dstType with
  | some d => (.ok d, cache)
  | none =>
    match getFields reg dstType with
    | .ok d => (.ok d, cache ++ [(dstType, d)])
    | .error e => (.error e, cache)

/-- `true` on the error branch of an `Except`. -/
def isErr : Except ε α → Bool
  | .error _ => true
  | .ok _ => false

/-- The declared field list of a destination type, empty unless it is a
pointer to a struct. -/
def fieldsOf : GoType → List GoField
  | .ptrToStruct fs => fs
  | _ => []

/-- The first annotation token (the column-name position of the tag). -/
def headTok (f : GoField) : String := (splitComma f.tag).headD ""

/-- The directive tokens after the column-name position. -/
def dirToks (f : GoField) : List String := (splitComma f.tag).drop 1

/-- The field takes part in the mapping: exported and not marked `-`. -/
def includedB (f : GoField) : Bool := f.pkgPath == "" && headTok f != "-"

/-- The column name a field resolves to: the first annotation token, or
the declared field name when that token is empty. -/
def resolvedName (f : GoField) : String :=
  if headTok f == "" then f.name else headTok f

/-- Ordered column names of the included fields, in declaration order. -/
def includedNames (fs : List GoField) : List String :=
  (fs.filter includedB).map resolvedName

/-- Some directive token of an included field is neither `pk` nor a
registered handler name. -/
def hasUnknownHandler (reg : String → Option Meddler) (fs : List GoField) : Bool :=
  fs.any fun f => includedB f && (dirToks f).any fun t => t != "pk" && (reg t).isNone

/-- The list contains a repeated element. -/
def hasDupB : List String → Bool
  | [] => false
  | x :: xs => xs.contains x || hasDupB xs

/-- Some included field carries the `pk` marker although its type is a
pointer or not a signed integer. -/
def hasBadPkType (fs : List GoField) : Bool :=
  fs.any fun f =>
    includedB f && (dirToks f).contains "pk" && (f.typ.isPtrKind || !f.typ.isIntKind)

/-- Number of included fields that carry the `pk` marker at least once
(the count the claim speaks about). -/
def pkFieldCount (fs : List GoField) : Nat :=
  (fs.filter fun f => includedB f && (dirToks f).contains "pk").length

/-- Total number of `pk` marker occurrences over all included fields,
counting repetitions inside a single annotation. -/
def pkTokenCount (fs : List GoField) : Nat :=
  (fs.map fun f => if includedB f then (dirToks f).count "pk" else 0).sum

/-- 0 if no primary key column has been recorded yet, 1 otherwise. -/
def pkSeen (pk : String) : Nat := if pk = "" then 0 else 1

/-- Claim C1's error condition exactly as stated: the primary-key clause
counts *fields* carrying the marker. -/
def schemaErrSpecOrig (reg : String → Option Meddler) : GoType → Bool
  | .nonPtr => true
  | .ptrToNonStruct => true
  | .ptrToStruct fs =>
      hasUnknownHandler reg fs || hasDupB (includedNames fs) ||
      decide (1 < pkFieldCount fs) || hasBadPkType fs

/-- The amended error condition: primary-key occurrences are counted as
marker tokens, so a repeated `pk` inside one annotation also errors. -/
def schemaErrSpec (reg : String → Option Meddler) : GoType → Bool
  | .nonPtr => true
  | .ptrToNonStruct => true
  | .ptrToStruct fs =>
      hasUnknownHandler reg fs || hasDupB (includedNames fs) ||
      decide (1 < pkTokenCount fs) || hasBadPkType fs

/-- Directive-token condition: a token other than `pk` is unregistered. -/
def tagHasUnknown (reg : String → Option Meddler) (toks : List String) : Bool :=
  toks.any fun t => t != "pk" && (reg t).isNone

/-- Some included column name of `fs` collides with a key already present
in the accumulated field map. -/
def anyKeyClash (fields : List (String × StructField)) (fs : List GoField) : Bool :=
  (includedNames fs).any fun n => (findField fields n).isSome

/-- The handler the directive loop leaves behind: later registered tokens
override earlier ones, `pk` tokens leave it alone (`sqlscan.go`, lines
88–111, restricted to the success path where unknown tokens cannot
occur). -/
def foldHandler (reg : String → Option Meddler) (f : GoField) : Option Meddler :=
  (dirToks f).foldl
    (fun acc t =>
      if t == "pk" then acc
      else match reg t with
        | some m => some m
        | none => acc)
    (reg "identity")

/-- Claim C2's wording of the handler choice: the last directive token
that is a registered handler name wins; identity when there is none. -/
def claimHandler (reg : String → Option Meddler) (f : GoField) : Option Meddler :=
  match ((dirToks f).filter fun t => (reg t).isSome).getLast? with
  | some t => reg t
  | none => some .identity

/-- The primary-key column after processing `fs`, starting from `pk`
(success-path recurrence: a field whose annotation carries `pk` records
its resolved column name). -/
def specPk (fs : List GoField) (pk : String) : String :=
  fs.foldl
    (fun acc f =>
      if includedB f = true ∧ "pk" ∈ dirToks f then resolvedName f else acc)
    pk

/-- The metadata entries the field loop appends on the success path,
starting at declaration index `i` with primary-key column `pk`. -/
def specEntries (reg : String → Option Meddler) :
    List GoField → Nat → String → List (String × StructField)
  | [], _, _ => []
  | f :: rest, i, pk =>
    if includedB f then
      let name := resolvedName f
      let pk' := if "pk" ∈ dirToks f then name else pk
      (name, ⟨name, i, name == pk', foldHandler reg f⟩) :: specEntries reg rest (i + 1) pk'
    else
      specEntries reg rest (i + 1) pk

/-- The write-then-read composition for the zero-is-null handler: the
value produced by `PreWrite` is stored (NULL when `none`), read back
through the wrapper cell allocated by `PreRead`, and finalized by
`PostRead` into the same field. -/
def zeroIsNullRoundTrip (v : Val) : Except String Val := do
  let w ← Meddler.zeroIsNull.preWrite v
  let _ ← Meddler.zeroIsNull.preRead v
  Meddler.zeroIsNull.postRead v w

/-- One scan target as handed to `rows.Scan`: bound to a struct field
(with the kind of cell `PreRead` chose) or a throwaway `new(interface{})`
for a result column with no matching field. -/
inductive TargetCell
  | field (idx : Nat) (st : ScanTarget)
  | throwaway
  deriving DecidableEq, Repr

/-- The column loop of `Targets` (`sqlscan.go`): for each result-set
column, the matching field's `PreRead` target, or a throwaway cell.
`dst` is the destination struct, one value per declared field, indexed by
`structField.index`. -/
def targetsLoop (d : StructData) (dst : List Val) : List String → Except String (List TargetCell)
  | [] => .ok []
  | name :: rest =>
    match findField d.fields name with
    | some fd =>
      match (match fd.meddler with
             | some m => m.preRead (dst.getD fd.index (.vother 0))
             | none => .error "meddler.Targets: nil meddler") with
      | .error e => .error ("meddler.Targets: PreRead error on column " ++ name ++ ": " ++ e)
      | .ok st =>
        match targetsLoop d dst rest with
        | .error e => .error e
        | .ok ts => .ok (.field fd.index st :: ts)
    | none =>
      match targetsLoop d dst rest with
      | .error e => .error e
      | .ok ts => .ok (.throwaway :: ts)

/-- `Targets` of `sqlscan.go` (it re-derives the metadata itself). -/
def Targets (reg : String → Option Meddler) (t : GoType) (dst : List Val)
    (columns : List String) : Except String (List TargetCell) :=
  match getFields reg t with
  | .error e => .error e
  | .ok d => targetsLoop d dst columns

/-- Same head constructor (the driver only stores a value of the
destination's own type through a direct target). -/
def Val.sameShape : Val → Val → Bool
  | .vint _, .vint _ => true
  | .vuint _, .vuint _ => true
  | .vfloat _, .vfloat _ => true
  | .vcplx _ _, .vcplx _ _ => true
  | .vstr _, .vstr _ => true
  | .vtime _, .vtime _ => true
  | .vtimeRef _, .vtimeRef _ => true
  | .vptr _, .vptr _ => true
  | .vother _, .vother _ => true
  | _, _ => false

/-- One driver conversion when `Scan` writes through a direct target (the
field's own address).  This models the external `database/sql` collaborator,
not repository code: NULL is accepted only into pointer-typed destinations,
and a non-NULL value must match the destination's shape. -/
def scanAssign (old : Val) (raw : Option Val) : Except String Val :=
  match old, raw with
  | .vtimeRef _, none => .ok (.vtimeRef none)
  | .vtimeRef _, some (.vtime t) => .ok (.vtimeRef (some t))
  | .vtimeRef _, some _ => .error "sql: Scan type mismatch"
  | .vptr _, none => .ok (.vptr true)
  | .vptr _, some _ => .ok (.vptr false)
  | _, none => .error "sql: Scan error: converting NULL to non-pointer destination"
  | old, some v =>
    if Val.sameShape old v then .ok v else .error "sql: Scan type mismatch"

/-- `rows.Scan(targets...)` (external `database/sql` collaborator): the
row's raw column values are written through the target cells — direct
targets overwrite their struct field, wrapper and throwaway cells absorb
the value without touching the struct.  Returns the struct after the
scan. -/
def applyScan (dst : List Val) : List TargetCell → List (Option Val) → Except String (List Val)
  | [], [] => .ok dst
  | .field idx .direct :: cs, raw :: rs =>
    match scanAssign (dst.getD idx (.vother 0)) raw with
    | .error e => .error e
    | .ok v => applyScan (dst.set idx v) cs rs
  | .field _ .wrapped :: cs, _ :: rs => applyScan dst cs rs
  | .throwaway :: cs, _ :: rs => applyScan dst cs rs
  | _, _ => .error "sql: expected equal numbers of destination arguments and columns"

/-- The column loop of `WriteTargets` (`sqlscan.go`): for each mapped
column run `PostRead` on the field and the scanned target, columns with no
matching field are skipped.  `cells` tells which kind of target `Targets`
produced for each column and `filled` what the driver stored for the
column (`none` ⇔ NULL), which is what a wrapper cell holds after the
scan. -/
def writeLoop (d : StructData) :
    List Val → List String → List TargetCell → List (Option Val) → Except String (List Val)
  | dst, [], _, _ => .ok dst
  | dst, name :: ns, c :: cs, w :: ws =>
    match findField d.fields name with
    | some fd =>
      match (match fd.meddler with
             | some m =>
               m.postRead (dst.getD fd.index (.vother 0))
                 (match c with
                  | .field _ .wrapped => w
                  | _ => none)
             | none => .error "meddler.WriteTargets: nil meddler") with
      | .error e =>
        .error ("meddler.WriteTargets: PostRead error on column " ++ name ++ ": " ++ e)
      | .ok v => writeLoop d (dst.set fd.index v) ns cs ws
    | none => writeLoop d dst ns cs ws
  | _, _ :: _, _, _ =>
    .error "meddler.WriteTargets: mismatch in number of columns and targets"

/-- `WriteTargets` of `sqlscan.go`: the length check, the metadata lookup,
and the post-processing loop. -/
def WriteTargets (reg : String → Option Meddler) (t : GoType) (dst : List Val)
    (columns : List String) (cells : List TargetCell) (filled : List (Option Val)) :
    Except String (List Val) :=
  if columns.length ≠ cells.length then
    .error "meddler.WriteTargets: mismatch in number of columns and targets"
  else
    match getFields reg t with
    | .error e => .error e
    | .ok d => writeLoop d dst columns cells filled

/-- The error type of the read paths: the distinguished `sql.ErrNoRows`
sentinel, or a hard error. -/
inductive MErr
  | noRows
  | hard (e : String)
  deriving DecidableEq, Repr

/-- The modelled result set (`*sql.Rows`): the rows still pending, the
error the driver will report once iteration ends (`rows.Err()`), and the
result-set column list (`rows.Columns()`). -/
structure RowsState where
  pending : List (List (Option Val))
  trailingErr : Option String
  cols : List String
  deriving Repr

/-- `rows.Err()`: a trailing error surfaces once the rows are exhausted. -/
def rowsErr (st : RowsState) : Option String :=
  if st.pending.isEmpty then st.trailingErr else none

/-- `(*structData).scanRow` of `sqlscan.go`, over the modelled result set:
check for a pending row (returning `sql.ErrNoRows` or the fetch error when
there is none), build targets, scan, post-process, and surface the
trailing error status.  Also returns the advanced result-set state. -/
def scanRow (reg : String → Option Meddler) (t : GoType) (st : RowsState) (dst : List Val) :
    Except MErr (List Val) × RowsState :=
  match st.pending with
  | [] =>
    (match st.trailingErr with
     | some e => .error (.hard e)
     | none => .error .noRows, st)
  | row :: rest =>
    let st' : RowsState := ⟨rest, st.trailingErr, st.cols⟩
    let res : Except MErr (List Val) :=
      match Targets reg t dst st.cols with
      | .error e => .error (.hard e)
      | .ok cells =>
        match applyScan dst cells row with
        | .error e => .error (.hard e)
        | .ok dst1 =>
          match WriteTargets reg t dst1 st.cols cells row with
          | .error e => .error (.hard e)
          | .ok dst2 =>
            match rowsErr st' with
            | some e => .error (.hard e)
            | none => .ok dst2
    (res, st')

/-- The zero struct value `reflect.New(eltType)` allocates. -/
def zeroStruct : GoType → List Val
  | .ptrToStruct fs => fs.map fun f => f.typ.zeroVal
  | _ => []

/-- The gathering loop of `ScanAll` (`sqlscan.go`): materialize rows into
fresh zero elements appended to the accumulator until exhaustion;
`sql.ErrNoRows` terminates normally, a hard error propagates.  (A
successful `scanRow` consumes exactly the head row, so the recursion
follows the pending list.) -/
def scanAllLoop (reg : String → Option Meddler) (t : GoType) (cols : List String)
    (trailingErr : Option String) :
    List (List (Option Val)) → List (List Val) → Except String (List (List Val))
  | [], acc =>
    (match (scanRow reg t ⟨[], trailingErr, cols⟩ (zeroStruct t)).1 with
     | .error .noRows => .ok acc
     | .error (.hard e) => .error e
     | .ok _ => .ok acc)
  | row :: rest, acc =>
    match (scanRow reg t ⟨row :: rest, trailingErr, cols⟩ (zeroStruct t)).1 with
    | .error .noRows => .ok acc
    | .error (.hard e) => .error e
    | .ok elt => scanAllLoop reg t cols trailingErr rest (acc ++ [elt])

/-- `ScanAll` of `sqlscan.go`.  `t` is the slice's element pointer type
(the destination-type checks of `ScanAll` amount to `t` being a pointer to
a struct, which is also what `getFields` enforces); `acc` holds the
existing slice contents the results are appended to. -/
def ScanAll (reg : String → Option Meddler) (t : GoType) (st : RowsState)
    (acc : List (List Val)) : Except String (List (List Val)) :=
  match getFields reg t with
  | .error e => .error e
  | .ok _ => scanAllLoop reg t st.cols st.trailingErr st.pending acc

/-- The destination type `*struct { ID int64 }` with tag `meddler:"id,pk,pk"`
on its only field: one field carrying the `pk` marker twice. -/
def pkTwiceType : GoType := .ptrToStruct [⟨"ID", "", "id,pk,pk", .fint64⟩]

/-- A destination type carrying a pointer-typed field annotated with the
zero-is-null handler: `*struct { P *int }` with tag `meddler:"p,zeroisnull"`. -/
def zeroNullPtrType : GoType := .ptrToStruct [⟨"P", "", "p,zeroisnull", .fptr⟩]

/-! ### Helper lemmas -/

lemma findField_append_isSome (l : List (String × StructField)) (k : String)
    (v : StructField) (n : String) :
    (findField (l ++ [(k, v)]) n).isSome = ((findField l n).isSome || k == n) := by
  induction l with
  | nil =>
    by_cases h : k = n <;> simp [findField, h]
  | cons p rest ih =>
    by_cases h : p.1 = n <;> simp [findField, h, ih]

lemma findField_mem (l : List (String × StructField)) (n : String) (v : StructField) :
    findField l n = some v → (n, v) ∈ l := by
  induction l with
  | nil => intro h; simp [findField] at h
  | cons p rest ih =>
    obtain ⟨k, w⟩ := p
    intro h
    by_cases hp : k = n
    · subst hp
      have h' : w = v := by simpa [findField] using h
      subst h'
      exact List.mem_cons_self _ _
    · simp only [findField, if_neg hp] at h
      exact List.mem_cons_of_mem _ (ih h)

lemma findField_isSome_iff (l : List (String × StructField)) (n : String) :
    (findField l n).isSome = true ↔ n ∈ l.map Prod.fst := by
  induction l with
  | nil => simp [findField]
  | cons p rest ih =>
    obtain ⟨k, w⟩ := p
    by_cases hp : k = n
    · subst hp
      simp [findField]
    · have hkn : n ≠ k := fun hh => hp hh.symm
      simp [findField, hp, ih, hkn]

lemma getD_set_ne (l : List Val) (i j : Nat) (v dv : Val) (h : i ≠ j) :
    (l.set i v).getD j dv = l.getD j dv := by
  simp [List.getD_eq_getElem?_getD, List.getElem?_set_ne h]

lemma includedNames_cons (f : GoField) (rest : List GoField) :
    includedNames (f :: rest) =
      if includedB f then resolvedName f :: includedNames rest else includedNames rest := by
  by_cases h : includedB f <;> simp [includedNames, List.filter_cons, h]

/-! ### The directive loop -/

lemma tagLoop_err_iff (reg : String → Option Meddler) (fName colName : String) (ftyp : FType)
    (toks : List String) (hcol : colName ≠ "") :
    ∀ (pk : String) (med : Option Meddler),
    (isErr (tagLoop reg fName colName ftyp toks pk med) = true ↔
      ((∃ t ∈ toks, t ≠ "pk" ∧ reg t = none) ∨
       ("pk" ∈ toks ∧ (ftyp.isPtrKind = true ∨ ftyp.isIntKind = false)) ∨
       1 < pkSeen pk + toks.count "pk")) := by
  induction toks with
  | nil =>
    intro pk med
    constructor
    · intro h
      simp [tagLoop, isErr] at h
    · rintro (⟨t, ht, _⟩ | ⟨hpk, _⟩ | hcnt)
      · exact absurd ht (List.not_mem_nil t)
      · exact absurd hpk (List.not_mem_nil _)
      · exfalso
        simp only [List.count_nil, pkSeen] at hcnt
        split at hcnt <;> omega
  | cons tok rest ih =>
    intro pk med
    by_cases htok : tok = "pk"
    · subst htok
      by_cases hptr : ftyp.isPtrKind = true
      · rw [show tagLoop reg fName colName ftyp ("pk" :: rest) pk med =
            .error ("meddler found field " ++ fName ++
              " which is marked as the primary key but is a pointer") by
            simp [tagLoop, hptr]]
        simp only [isErr, true_iff]
        exact Or.inr (Or.inl ⟨List.mem_cons_self _ _, Or.inl hptr⟩)
      · by_cases hint : ftyp.isIntKind = true
        · by_cases hpk : pk = ""
          · subst hpk
            rw [show tagLoop reg fName colName ftyp ("pk" :: rest) "" med =
                tagLoop reg fName colName ftyp rest colName med by
                simp [tagLoop, hptr, hint]]
            rw [ih colName med]
            constructor
            · rintro (h | h | hcnt)
              · exact Or.inl ⟨h.choose, List.mem_cons_of_mem _ h.choose_spec.1,
                  h.choose_spec.2⟩
              · exact Or.inr (Or.inl ⟨List.mem_cons_of_mem _ h.1, h.2⟩)
              · refine Or.inr (Or.inr ?_)
                simp only [pkSeen, if_neg hcol] at hcnt
                rw [show pkSeen "" = 0 from rfl, List.count_cons_self]
                omega
            · rintro (⟨t, ht, hne, hnone⟩ | ⟨hmem, hbad⟩ | hcnt)
              · rcases List.mem_cons.mp ht with h | h
                · exact absurd h hne
                · exact Or.inl ⟨t, h, hne, hnone⟩
              · rcases List.mem_cons.mp hmem with h | h
                · rcases hbad with hb | hb
                  · exact absurd hb (by simpa using hptr)
                  · exact absurd hint (by simp [hb])
                · exact Or.inr (Or.inl ⟨h, hbad⟩)
              · refine Or.inr (Or.inr ?_)
                rw [show pkSeen "" = 0 from rfl, List.count_cons_self] at hcnt
                rw [show pkSeen colName = 1 from if_neg hcol]
                omega
          · rw [show tagLoop reg fName colName ftyp ("pk" :: rest) pk med =
                .error ("meddler found field " ++ fName ++
                  " which is marked as the primary key, but a primary key field was already found") by
                simp [tagLoop, hptr, hint, hpk]]
            simp only [isErr, true_iff]
            refine Or.inr (Or.inr ?_)
            rw [show pkSeen pk = 1 from if_neg hpk, List.count_cons_self]
            omega
        · rw [show tagLoop reg fName colName ftyp ("pk" :: rest) pk med =
              .error ("meddler found field " ++ fName ++
                " which is marked as the primary key, but is not an integer type") by
              simp [tagLoop, hptr, hint]]
          simp only [isErr, true_iff]
          exact Or.inr (Or.inl ⟨List.mem_cons_self _ _,
            Or.inr (by simpa using hint)⟩)
    · cases hreg : reg tok with
      | some m =>
        rw [show tagLoop reg fName colName ftyp (tok :: rest) pk med =
            tagLoop reg fName colName ftyp rest pk (some m) by
            simp [tagLoop, htok, hreg]]
        rw [ih pk (some m)]
        constructor
        · rintro (⟨t, ht, h⟩ | ⟨hmem, hbad⟩ | hcnt)
          · exact Or.inl ⟨t, List.mem_cons_of_mem _ ht, h⟩
          · exact Or.inr (Or.inl ⟨List.mem_cons_of_mem _ hmem, hbad⟩)
          · refine Or.inr (Or.inr ?_)
            rw [List.count_cons_of_ne (fun hh => htok hh.symm)]
            exact hcnt
        · rintro (⟨t, ht, hne, hnone⟩ | ⟨hmem, hbad⟩ | hcnt)
          · rcases List.mem_cons.mp ht with h | h
            · subst h; rw [hreg] at hnone; cases hnone
            · exact Or.inl ⟨t, h, hne, hnone⟩
          · rcases List.mem_cons.mp hmem with h | h
            · exact absurd h.symm htok
            · exact Or.inr (Or.inl ⟨h, hbad⟩)
          · refine Or.inr (Or.inr ?_)
            rw [List.count_cons_of_ne (fun hh => htok hh.symm)] at hcnt
            exact hcnt
      | none =>
        rw [show tagLoop reg fName colName ftyp (tok :: rest) pk med =
            .error ("meddler found field " ++ fName ++ " with meddler " ++ tok ++
              ", but that meddler is not registered") by
            simp [tagLoop, htok, hreg]]
        simp only [isErr, true_iff]
        exact Or.inl ⟨tok, List.mem_cons_self _ _, htok, hreg⟩

lemma tagLoop_ok (reg : String → Option Meddler) (fName colName : String) (ftyp : FType)
    (toks : List String) :
    ∀ (pk : String) (med : Option Meddler) (pk' : String) (med' : Option Meddler),
    tagLoop reg fName colName ftyp toks pk med = .ok (pk', med') →
      pk' = (if "pk" ∈ toks then colName else pk) ∧
      med' = toks.foldl
        (fun acc t =>
          if t == "pk" then acc
          else match reg t with
            | some m => some m
            | none => acc)
        med := by
  induction toks with
  | nil =>
    intro pk med pk' med' h
    simp [tagLoop] at h
    simp [h.1.symm, h.2.symm]
  | cons tok rest ih =>
    intro pk med pk' med' h
    by_cases htok : tok = "pk"
    · subst htok
      by_cases hptr : ftyp.isPtrKind = true
      · simp [tagLoop, hptr] at h
      · by_cases hint : ftyp.isIntKind = true
        · by_cases hpk : pk = ""
          · subst hpk
            rw [show tagLoop reg fName colName ftyp ("pk" :: rest) "" med =
                tagLoop reg fName colName ftyp rest colName med by
                simp [tagLoop, hptr, hint]] at h
            obtain ⟨h1, h2⟩ := ih colName med pk' med' h
            constructor
            · rw [h1]
              by_cases hmem : "pk" ∈ rest <;> simp [hmem, List.mem_cons]
            · rw [h2]
              simp [List.foldl_cons]
          · simp [tagLoop, hptr, hint, hpk] at h
        · simp [tagLoop, hptr, hint] at h
    · cases hreg : reg tok with
      | some m =>
        rw [show tagLoop reg fName colName ftyp (tok :: rest) pk med =
            tagLoop reg fName colName ftyp rest pk (some m) by
            simp [tagLoop, htok, hreg]] at h
        obtain ⟨h1, h2⟩ := ih pk (some m) pk' med' h
        constructor
        · rw [h1]
          simp [List.mem_cons, htok, Ne.symm htok]
        · rw [h2]
          simp [htok, hreg]
      | none =>
        simp [tagLoop, htok, hreg] at h

/-! ### The field loop -/

lemma resolvedName_ne_empty {f : GoField} (hf : f.name ≠ "") : resolvedName f ≠ "" := by
  unfold resolvedName
  split
  · exact hf
  · next h => simpa using h

lemma loopName_eq (f : GoField) :
    (if (splitComma f.tag).headD "" ≠ "" then (splitComma f.tag).headD "" else f.name) =
      resolvedName f := by
  by_cases h : (splitComma f.tag).headD "" = "" <;> simp [resolvedName, headTok, h]

lemma pkTokenCount_cons (f : GoField) (rest : List GoField) :
    pkTokenCount (f :: rest) =
      (if includedB f then (dirToks f).count "pk" else 0) + pkTokenCount rest := by
  simp [pkTokenCount]

lemma hasDupB_cons (x : String) (xs : List String) :
    hasDupB (x :: xs) = (xs.contains x || hasDupB xs) := rfl

lemma includedNames_mem_iff (n : String) (fs : List GoField) :
    n ∈ includedNames fs ↔ ∃ g ∈ fs, includedB g = true ∧ resolvedName g = n := by
  simp only [includedNames, List.mem_map, List.mem_filter]
  constructor
  · rintro ⟨g, ⟨hg, hinc⟩, hn⟩
    exact ⟨g, hg, hinc, hn⟩
  · rintro ⟨g, hg, hinc, hn⟩
    exact ⟨g, ⟨hg, hinc⟩, hn⟩

lemma fieldsLoop_cons (reg : String → Option Meddler) (f : GoField) (rest : List GoField)
    (i : Nat) (data : StructData) :
    fieldsLoop reg (f :: rest) i data =
      if f.pkgPath ≠ "" then fieldsLoop reg rest (i + 1) data
      else if headTok f = "-" then fieldsLoop reg rest (i + 1) data
      else
        match tagLoop reg f.name (resolvedName f) f.typ (dirToks f) data.pk
            (reg "identity") with
        | .error e => .error e
        | .ok (pk', med) =>
          if (findField data.fields (resolvedName f)).isSome then
            .error ("meddler found multiple fields for column " ++ resolvedName f)
          else
            fieldsLoop reg rest (i + 1)
              ⟨data.columns ++ [resolvedName f],
               data.fields ++
                 [(resolvedName f, ⟨resolvedName f, i, resolvedName f == pk', med⟩)],
               pk'⟩ := by
  by_cases h : (splitComma f.tag).headD "" = "" <;>
    simp [fieldsLoop, headTok, resolvedName, dirToks, h]

lemma fieldsLoop_err_iff (reg : String → Option Meddler) (fs : List GoField) :
    ∀ (i : Nat) (data : StructData), (∀ f ∈ fs, f.name ≠ "") →
    (isErr (fieldsLoop reg fs i data) = true ↔
      ((∃ f ∈ fs, includedB f = true ∧ ∃ t ∈ dirToks f, t ≠ "pk" ∧ reg t = none) ∨
       (∃ f ∈ fs, includedB f = true ∧
         (findField data.fields (resolvedName f)).isSome = true) ∨
       hasDupB (includedNames fs) = true ∨
       1 < pkSeen data.pk + pkTokenCount fs ∨
       (∃ f ∈ fs, includedB f = true ∧ "pk" ∈ dirToks f ∧
         (f.typ.isPtrKind = true ∨ f.typ.isIntKind = false)))) := by
  induction fs with
  | nil =>
    intro i data _
    constructor
    · intro h
      simp [fieldsLoop, isErr] at h
    · rintro (⟨f, hf, _⟩ | ⟨f, hf, _⟩ | hdup | hcnt | ⟨f, hf, _⟩)
      · exact absurd hf (List.not_mem_nil f)
      · exact absurd hf (List.not_mem_nil f)
      · simp [includedNames, hasDupB] at hdup
      · exfalso
        simp only [pkTokenCount, List.map_nil, List.sum_nil, pkSeen] at hcnt
        split at hcnt <;> omega
      · exact absurd hf (List.not_mem_nil f)
  | cons f rest ih =>
    intro i data hWF
    have hWFf : f.name ≠ "" := hWF f (List.mem_cons_self _ _)
    have hWFr : ∀ g ∈ rest, g.name ≠ "" := fun g hg => hWF g (List.mem_cons_of_mem _ hg)
    by_cases hpp : f.pkgPath = ""
    · by_cases ht0 : headTok f = "-"
      · -- field excluded by "-"
        have hninc : includedB f = false := by
          simp [includedB, hpp, ht0]
        rw [fieldsLoop_cons, if_neg (by simp [hpp]), if_pos ht0]
        rw [ih (i + 1) data hWFr]
        constructor
        · rintro (⟨g, hg, h⟩ | ⟨g, hg, h⟩ | hdup | hcnt | ⟨g, hg, h⟩)
          · exact Or.inl ⟨g, List.mem_cons_of_mem _ hg, h⟩
          · exact Or.inr (Or.inl ⟨g, List.mem_cons_of_mem _ hg, h⟩)
          · refine Or.inr (Or.inr (Or.inl ?_))
            rw [includedNames_cons, if_neg (by simp [hninc])]
            exact hdup
          · refine Or.inr (Or.inr (Or.inr (Or.inl ?_)))
            rw [pkTokenCount_cons, if_neg (by simp [hninc])]
            omega
          · exact Or.inr (Or.inr (Or.inr (Or.inr ⟨g, List.mem_cons_of_mem _ hg, h⟩)))
        · rintro (⟨g, hg, h⟩ | ⟨g, hg, h⟩ | hdup | hcnt | ⟨g, hg, h⟩)
          · rcases List.mem_cons.mp hg with rfl | hg'
            · rw [hninc] at h; cases h.1
            · exact Or.inl ⟨g, hg', h⟩
          · rcases List.mem_cons.mp hg with rfl | hg'
            · rw [hninc] at h; cases h.1
            · exact Or.inr (Or.inl ⟨g, hg', h⟩)
          · refine Or.inr (Or.inr (Or.inl ?_))
            rw [includedNames_cons, if_neg (by simp [hninc])] at hdup
            exact hdup
          · refine Or.inr (Or.inr (Or.inr (Or.inl ?_)))
            rw [pkTokenCount_cons, if_neg (by simp [hninc])] at hcnt
            omega
          · rcases List.mem_cons.mp hg with rfl | hg'
            · rw [hninc] at h; cases h.1
            · exact Or.inr (Or.inr (Or.inr (Or.inr ⟨g, hg', h⟩)))
      · -- field included
        have hinc : includedB f = true := by
          simp [includedB, hpp, ht0]
        have hname : resolvedName f ≠ "" := resolvedName_ne_empty hWFf
        rw [fieldsLoop_cons, if_neg (by simp [hpp]), if_neg ht0]
        cases htag : tagLoop reg f.name (resolvedName f) f.typ (dirToks f) data.pk
            (reg "identity") with
        | error e =>
          simp only [htag]
          simp only [isErr, true_iff]
          have herr := (tagLoop_err_iff reg f.name (resolvedName f) f.typ (dirToks f)
            hname data.pk (reg "identity")).mp (by rw [htag]; rfl)
          rcases herr with h | h | hcnt
          · exact Or.inl ⟨f, List.mem_cons_self _ _, hinc, h⟩
          · exact Or.inr (Or.inr (Or.inr (Or.inr
              ⟨f, List.mem_cons_self _ _, hinc, h.1, h.2⟩)))
          · refine Or.inr (Or.inr (Or.inr (Or.inl ?_)))
            rw [pkTokenCount_cons, if_pos hinc]
            omega
        | ok pm =>
          obtain ⟨pk', med⟩ := pm
          have hnoerr : ¬((∃ t ∈ dirToks f, t ≠ "pk" ∧ reg t = none) ∨
              ("pk" ∈ dirToks f ∧ (f.typ.isPtrKind = true ∨ f.typ.isIntKind = false)) ∨
              1 < pkSeen data.pk + (dirToks f).count "pk") := by
            intro hq
            have := (tagLoop_err_iff reg f.name (resolvedName f) f.typ (dirToks f)
              hname data.pk (reg "identity")).mpr hq
            rw [htag] at this
            simp [isErr] at this
          have hnu : ¬(∃ t ∈ dirToks f, t ≠ "pk" ∧ reg t = none) :=
            fun ha => hnoerr (Or.inl ha)
          have hnbad : ¬("pk" ∈ dirToks f ∧
              (f.typ.isPtrKind = true ∨ f.typ.isIntKind = false)) :=
            fun hb => hnoerr (Or.inr (Or.inl hb))
          have hcnt1 : pkSeen data.pk + (dirToks f).count "pk" ≤ 1 :=
            Nat.not_lt.mp fun hc => hnoerr (Or.inr (Or.inr hc))
          obtain ⟨hpk', _⟩ := tagLoop_ok reg f.name (resolvedName f) f.typ (dirToks f)
            data.pk (reg "identity") pk' med htag
          by_cases hdup0 : (findField data.fields (resolvedName f)).isSome = true
          · simp only [htag, if_pos hdup0]
            simp only [isErr, true_iff]
            exact Or.inr (Or.inl ⟨f, List.mem_cons_self _ _, hinc, hdup0⟩)
          · simp only [htag, if_neg hdup0]
            rw [ih (i + 1) _ hWFr]
            have hpkcase : (("pk" ∈ dirToks f ∧ pkSeen data.pk = 0 ∧
                (dirToks f).count "pk" = 1 ∧ pk' = resolvedName f) ∨
                ("pk" ∉ dirToks f ∧ (dirToks f).count "pk" = 0 ∧ pk' = data.pk)) := by
              by_cases hmem : "pk" ∈ dirToks f
              · left
                have h1 : 0 < (dirToks f).count "pk" := List.count_pos_iff.mpr hmem
                refine ⟨hmem, ?_, ?_, by rw [hpk', if_pos hmem]⟩ <;> omega
              · right
                exact ⟨hmem, List.count_eq_zero.mpr hmem, by rw [hpk', if_neg hmem]⟩
            constructor
            · rintro (⟨g, hg, h⟩ | ⟨g, hg, h1, h2⟩ | hdup | hcnt | ⟨g, hg, h⟩)
              · exact Or.inl ⟨g, List.mem_cons_of_mem _ hg, h⟩
              · rw [findField_append_isSome] at h2
                rcases Bool.or_eq_true_iff.mp h2 with h2 | h2
                · exact Or.inr (Or.inl ⟨g, List.mem_cons_of_mem _ hg, h1, h2⟩)
                · refine Or.inr (Or.inr (Or.inl ?_))
                  rw [includedNames_cons, if_pos hinc, hasDupB_cons]
                  have : resolvedName g ∈ includedNames rest :=
                    (includedNames_mem_iff _ _).mpr ⟨g, hg, h1, rfl⟩
                  have heq : resolvedName f = resolvedName g := by
                    simpa using h2
                  rw [heq]
                  simp [this]
              · refine Or.inr (Or.inr (Or.inl ?_))
                rw [includedNames_cons, if_pos hinc, hasDupB_cons]
                simp [hdup]
              · refine Or.inr (Or.inr (Or.inr (Or.inl ?_)))
                rw [pkTokenCount_cons, if_pos hinc]
                replace hcnt : 1 < pkSeen pk' + pkTokenCount rest := hcnt
                rcases hpkcase with ⟨_, h0, h1, hp⟩ | ⟨_, h1, hp⟩
                · rw [hp] at hcnt
                  rw [show pkSeen (resolvedName f) = 1 from if_neg hname] at hcnt
                  omega
                · rw [hp] at hcnt
                  omega
              · exact Or.inr (Or.inr (Or.inr (Or.inr ⟨g, List.mem_cons_of_mem _ hg, h⟩)))
            · rintro (⟨g, hg, h⟩ | ⟨g, hg, h1, h2⟩ | hdup | hcnt | ⟨g, hg, h⟩)
              · rcases List.mem_cons.mp hg with rfl | hg'
                · exact absurd h.2 hnu
                · exact Or.inl ⟨g, hg', h⟩
              · rcases List.mem_cons.mp hg with rfl | hg'
                · exact absurd h2 (by simp [hdup0])
                · refine Or.inr (Or.inl ⟨g, hg', h1, ?_⟩)
                  rw [findField_append_isSome]
                  simp [h2]
              · rw [includedNames_cons, if_pos hinc, hasDupB_cons] at hdup
                rcases Bool.or_eq_true_iff.mp hdup with hdup | hdup
                · have hmem : resolvedName f ∈ includedNames rest := by
                    simpa using hdup
                  obtain ⟨g, hg, hginc, hgn⟩ := (includedNames_mem_iff _ _).mp hmem
                  refine Or.inr (Or.inl ⟨g, hg, hginc, ?_⟩)
                  rw [findField_append_isSome, hgn]
                  simp
                · exact Or.inr (Or.inr (Or.inl hdup))
              · rw [pkTokenCount_cons, if_pos hinc] at hcnt
                refine Or.inr (Or.inr (Or.inr (Or.inl ?_)))
                show 1 < pkSeen pk' + pkTokenCount rest
                rcases hpkcase with ⟨_, h0, h1, hp⟩ | ⟨_, h1, hp⟩
                · rw [hp, show pkSeen (resolvedName f) = 1 from if_neg hname]
                  omega
                · rw [hp]
                  omega
              · rcases List.mem_cons.mp hg with rfl | hg'
                · exact absurd ⟨h.2.1, h.2.2⟩ hnbad
                · exact Or.inr (Or.inr (Or.inr (Or.inr ⟨g, hg', h⟩)))
    · -- unexported field
      have hninc : includedB f = false := by
        simp [includedB, hpp]
      rw [fieldsLoop_cons, if_pos hpp]
      rw [ih (i + 1) data hWFr]
      constructor
      · rintro (⟨g, hg, h⟩ | ⟨g, hg, h⟩ | hdup | hcnt | ⟨g, hg, h⟩)
        · exact Or.inl ⟨g, List.mem_cons_of_mem _ hg, h⟩
        · exact Or.inr (Or.inl ⟨g, List.mem_cons_of_mem _ hg, h⟩)
        · refine Or.inr (Or.inr (Or.inl ?_))
          rw [includedNames_cons, if_neg (by simp [hninc])]
          exact hdup
        · refine Or.inr (Or.inr (Or.inr (Or.inl ?_)))
          rw [pkTokenCount_cons, if_neg (by simp [hninc])]
          omega
        · exact Or.inr (Or.inr (Or.inr (Or.inr ⟨g, List.mem_cons_of_mem _ hg, h⟩)))
      · rintro (⟨g, hg, h⟩ | ⟨g, hg, h⟩ | hdup | hcnt | ⟨g, hg, h⟩)
        · rcases List.mem_cons.mp hg with rfl | hg'
          · rw [hninc] at h; cases h.1
          · exact Or.inl ⟨g, hg', h⟩
        · rcases List.mem_cons.mp hg with rfl | hg'
          · rw [hninc] at h; cases h.1
          · exact Or.inr (Or.inl ⟨g, hg', h⟩)
        · refine Or.inr (Or.inr (Or.inl ?_))
          rw [includedNames_cons, if_neg (by simp [hninc])] at hdup
          exact hdup
        · refine Or.inr (Or.inr (Or.inr (Or.inl ?_)))
          rw [pkTokenCount_cons, if_neg (by simp [hninc])] at hcnt
          omega
        · rcases List.mem_cons.mp hg with rfl | hg'
          · rw [hninc] at h; cases h.1
          · exact Or.inr (Or.inr (Or.inr (Or.inr ⟨g, hg', h⟩)))

lemma pkSeen_eq_zero_iff (pk : String) : pkSeen pk = 0 ↔ pk = "" := by
  unfold pkSeen
  split <;> simp_all

lemma fieldsLoop_ok_spec (reg : String → Option Meddler) (fs : List GoField) :
    ∀ (i : Nat) (data d : StructData),
    fieldsLoop reg fs i data = .ok d →
      d.columns = data.columns ++ includedNames fs ∧
      d.fields = data.fields ++ specEntries reg fs i data.pk ∧
      d.pk = specPk fs data.pk := by
  induction fs with
  | nil =>
    intro i data d h
    have hd : data = d := by simpa [fieldsLoop] using h
    subst hd
    simp [includedNames, specEntries, specPk]
  | cons f rest ih =>
    intro i data d h
    by_cases hpp : f.pkgPath = ""
    · by_cases ht0 : headTok f = "-"
      · have hninc : includedB f = false := by simp [includedB, hpp, ht0]
        rw [fieldsLoop_cons, if_neg (by simp [hpp]), if_pos ht0] at h
        obtain ⟨h1, h2, h3⟩ := ih (i + 1) data d h
        refine ⟨?_, ?_, ?_⟩
        · rw [h1, includedNames_cons, if_neg (by simp [hninc])]
        · rw [h2]
          congr 1
          simp [specEntries, hninc]
        · rw [h3]
          simp [specPk, List.foldl_cons, hninc]
      · have hinc : includedB f = true := by simp [includedB, hpp, ht0]
        rw [fieldsLoop_cons, if_neg (by simp [hpp]), if_neg ht0] at h
        cases htag : tagLoop reg f.name (resolvedName f) f.typ (dirToks f) data.pk
            (reg "identity") with
        | error e =>
          simp only [htag] at h
          simp at h
        | ok pm =>
          obtain ⟨pk', med⟩ := pm
          simp only [htag] at h
          by_cases hdup0 : (findField data.fields (resolvedName f)).isSome = true
          · rw [if_pos hdup0] at h
            simp at h
          · rw [if_neg hdup0] at h
            obtain ⟨h1, h2, h3⟩ := ih (i + 1) _ d h
            replace h1 : d.columns =
                (data.columns ++ [resolvedName f]) ++ includedNames rest := h1
            replace h2 : d.fields =
                (data.fields ++
                  [(resolvedName f,
                    ⟨resolvedName f, i, resolvedName f == pk', med⟩)]) ++
                  specEntries reg rest (i + 1) pk' := h2
            replace h3 : d.pk = specPk rest pk' := h3
            obtain ⟨hpk', hmed⟩ := tagLoop_ok reg f.name (resolvedName f) f.typ
              (dirToks f) data.pk (reg "identity") pk' med htag
            have hmed' : med = foldHandler reg f := hmed
            refine ⟨?_, ?_, ?_⟩
            · rw [h1, List.append_assoc, List.singleton_append, includedNames_cons,
                if_pos hinc]
            · rw [h2, List.append_assoc, List.singleton_append]
              congr 1
              have hse : specEntries reg (f :: rest) i data.pk =
                  (resolvedName f,
                    ⟨resolvedName f, i,
                      resolvedName f ==
                        (if "pk" ∈ dirToks f then resolvedName f else data.pk),
                      foldHandler reg f⟩) ::
                  specEntries reg rest (i + 1)
                    (if "pk" ∈ dirToks f then resolvedName f else data.pk) := by
                simp [specEntries, hinc]
              rw [hse, ← hpk', ← hmed']
            · rw [h3]
              have hsp : specPk (f :: rest) data.pk =
                  specPk rest
                    (if includedB f = true ∧ "pk" ∈ dirToks f then resolvedName f
                     else data.pk) := by
                simp [specPk, List.foldl_cons]
              rw [hsp]
              congr 1
              rw [hpk']
              simp [hinc]
    · have hninc : includedB f = false := by simp [includedB, hpp]
      rw [fieldsLoop_cons, if_pos hpp] at h
      obtain ⟨h1, h2, h3⟩ := ih (i + 1) data d h
      refine ⟨?_, ?_, ?_⟩
      · rw [h1, includedNames_cons, if_neg (by simp [hninc])]
      · rw [h2]
        congr 1
        simp [specEntries, hninc]
      · rw [h3]
        simp [specPk, List.foldl_cons, hninc]

lemma fieldsLoop_ok_inv (reg : String → Option Meddler) (fs : List GoField) :
    ∀ (i : Nat) (data d : StructData),
    (∀ f ∈ fs, f.name ≠ "") →
    data.columns.Nodup →
    data.fields.map Prod.fst = data.columns →
    (∀ p ∈ data.fields, p.2.column = p.1) →
    (data.pk ≠ "" → data.pk ∈ data.columns) →
    (data.fields.filter (fun p => p.2.primaryKey)).length = pkSeen data.pk →
    fieldsLoop reg fs i data = .ok d →
      d.columns.Nodup ∧
      d.fields.map Prod.fst = d.columns ∧
      (∀ p ∈ d.fields, p.2.column = p.1) ∧
      (d.pk ≠ "" → d.pk ∈ d.columns) ∧
      (d.fields.filter (fun p => p.2.primaryKey)).length = pkSeen d.pk := by
  induction fs with
  | nil =>
    intro i data d _ a b c e g h
    have hd : data = d := by simpa [fieldsLoop] using h
    subst hd
    exact ⟨a, b, c, e, g⟩
  | cons f rest ih =>
    intro i data d hWF a b c e g h
    have hWFf : f.name ≠ "" := hWF f (List.mem_cons_self _ _)
    have hWFr : ∀ q ∈ rest, q.name ≠ "" := fun q hq => hWF q (List.mem_cons_of_mem _ hq)
    by_cases hpp : f.pkgPath = ""
    · by_cases ht0 : headTok f = "-"
      · rw [fieldsLoop_cons, if_neg (by simp [hpp]), if_pos ht0] at h
        exact ih (i + 1) data d hWFr a b c e g h
      · have hname : resolvedName f ≠ "" := resolvedName_ne_empty hWFf
        rw [fieldsLoop_cons, if_neg (by simp [hpp]), if_neg ht0] at h
        cases htag : tagLoop reg f.name (resolvedName f) f.typ (dirToks f) data.pk
            (reg "identity") with
        | error e' =>
          simp only [htag] at h
          simp at h
        | ok pm =>
          obtain ⟨pk', med⟩ := pm
          simp only [htag] at h
          by_cases hdup0 : (findField data.fields (resolvedName f)).isSome = true
          · rw [if_pos hdup0] at h
            simp at h
          · rw [if_neg hdup0] at h
            have hnotmem : resolvedName f ∉ data.columns := by
              intro hmem
              exact hdup0 ((findField_isSome_iff _ _).mpr (by rw [b]; exact hmem))
            have hnoerr : ¬(1 < pkSeen data.pk + (dirToks f).count "pk") := by
              intro hq
              have := (tagLoop_err_iff reg f.name (resolvedName f) f.typ (dirToks f)
                hname data.pk (reg "identity")).mpr (Or.inr (Or.inr hq))
              rw [htag] at this
              simp [isErr] at this
            have hcnt1 : pkSeen data.pk + (dirToks f).count "pk" ≤ 1 :=
              Nat.not_lt.mp hnoerr
            obtain ⟨hpk', _⟩ := tagLoop_ok reg f.name (resolvedName f) f.typ
              (dirToks f) data.pk (reg "identity") pk' med htag
            have hflag : ∀ b' : Bool, (resolvedName f == pk') = b' →
                True := fun _ _ => trivial
            -- invariants for the extended accumulator
            have a' : (data.columns ++ [resolvedName f]).Nodup := by
              rw [List.nodup_append]
              refine ⟨a, List.nodup_singleton _, ?_⟩
              intro x hx hx'
              simp only [List.mem_singleton] at hx'
              subst hx'
              exact hnotmem hx
            have b' : (data.fields ++
                [(resolvedName f, (⟨resolvedName f, i, resolvedName f == pk', med⟩ : StructField))]).map
                  Prod.fst = data.columns ++ [resolvedName f] := by
              rw [List.map_append, b]
              rfl
            have c' : ∀ p ∈ data.fields ++
                [(resolvedName f, (⟨resolvedName f, i, resolvedName f == pk', med⟩ : StructField))],
                p.2.column = p.1 := by
              intro p hp
              rcases List.mem_append.mp hp with hp | hp
              · exact c p hp
              · simp only [List.mem_singleton] at hp
                subst hp
                rfl
            by_cases hmem : "pk" ∈ dirToks f
            · -- this field records the primary key
              have hcpos : 0 < (dirToks f).count "pk" := List.count_pos_iff.mpr hmem
              have hpk0 : data.pk = "" := by
                have : pkSeen data.pk = 0 := by omega
                exact (pkSeen_eq_zero_iff _).mp this
              have hpkval : pk' = resolvedName f := by rw [hpk', if_pos hmem]
              have e' : pk' ≠ "" → pk' ∈ data.columns ++ [resolvedName f] := by
                intro _
                rw [hpkval]
                exact List.mem_append.mpr (Or.inr (List.mem_singleton.mpr rfl))
              have g' : ((data.fields ++
                  [(resolvedName f, (⟨resolvedName f, i, resolvedName f == pk', med⟩ : StructField))]).filter
                    (fun p => p.2.primaryKey)).length = pkSeen pk' := by
                rw [List.filter_append, List.length_append]
                have hold : (data.fields.filter (fun p => p.2.primaryKey)).length = 0 := by
                  rw [g, hpk0]
                  rfl
                have hnew : (([(resolvedName f,
                    (⟨resolvedName f, i, resolvedName f == pk', med⟩ : StructField))].filter
                      (fun p => p.2.primaryKey))).length = 1 := by
                  simp [List.filter, hpkval]
                rw [hold, hnew, hpkval, show pkSeen (resolvedName f) = 1 from if_neg hname]
              exact ih (i + 1) _ d hWFr a' b' c' e' g' h
            · -- no pk token on this field
              have hc0 : (dirToks f).count "pk" = 0 := List.count_eq_zero.mpr hmem
              have hpkval : pk' = data.pk := by rw [hpk', if_neg hmem]
              have hflagfalse : (resolvedName f == pk') = false := by
                rw [hpkval]
                by_cases hdpk : data.pk = ""
                · rw [hdpk]
                  simpa using hname
                · have : data.pk ∈ data.columns := e hdpk
                  have hne : resolvedName f ≠ data.pk := by
                    intro hq
                    rw [hq] at hnotmem
                    exact hnotmem this
                  simpa using hne
              have e' : pk' ≠ "" → pk' ∈ data.columns ++ [resolvedName f] := by
                intro hq
                rw [hpkval] at hq ⊢
                exact List.mem_append.mpr (Or.inl (e hq))
              have g' : ((data.fields ++
                  [(resolvedName f, (⟨resolvedName f, i, resolvedName f == pk', med⟩ : StructField))]).filter
                    (fun p => p.2.primaryKey)).length = pkSeen pk' := by
                rw [List.filter_append, List.length_append]
                have hnew : (([(resolvedName f,
                    (⟨resolvedName f, i, resolvedName f == pk', med⟩ : StructField))].filter
                      (fun p => p.2.primaryKey))).length = 0 := by
                  simp [List.filter, hflagfalse]
                rw [hnew, g, hpkval]
                omega
              exact ih (i + 1) _ d hWFr a' b' c' e' g' h
    · rw [fieldsLoop_cons, if_pos hpp] at h
      exact ih (i + 1) data d hWFr a b c e g h

/-! ### Success-path entry characterization -/

lemma foldl_handler_eq_getLast (reg : String → Option Meddler) (hpk : reg "pk" = none)
    (l : List String) :
    ∀ (init : Option Meddler),
    l.foldl
      (fun acc u =>
        if u == "pk" then acc
        else match reg u with
          | some m => some m
          | none => acc)
      init =
    (match (l.filter fun u => (reg u).isSome).getLast? with
     | some u => reg u
     | none => init) := by
  induction l with
  | nil => intro init; rfl
  | cons u l' ih =>
    intro init
    by_cases hu : u = "pk"
    · subst hu
      rw [List.foldl_cons]
      have hstep : (if (("pk" : String) == "pk") = true then init
          else match reg "pk" with
            | some m => some m
            | none => init) = init := by simp
      rw [hstep, ih init]
      have hfilter : (("pk" :: l').filter fun u' => (reg u').isSome) =
          l'.filter fun u' => (reg u').isSome := by
        simp [List.filter_cons, hpk]
      rw [hfilter]
    · cases hreg : reg u with
      | some m =>
        rw [List.foldl_cons]
        have hstep : (if (u == "pk") = true then init
            else match reg u with
              | some m' => some m'
              | none => init) = some m := by simp [hu, hreg]
        rw [hstep, ih (some m)]
        have hfilter : ((u :: l').filter fun u' => (reg u').isSome) =
            u :: (l'.filter fun u' => (reg u').isSome) := by
          simp [List.filter_cons, hreg]
        rw [hfilter]
        cases hl : (l'.filter fun u' => (reg u').isSome) with
        | nil => simp [hreg]
        | cons a as =>
          rw [List.getLast?_cons_cons]
          cases hx : (a :: as).getLast? with
          | none => simp at hx
          | some x => rfl
      | none =>
        rw [List.foldl_cons]
        have hstep : (if (u == "pk") = true then init
            else match reg u with
              | some m' => some m'
              | none => init) = init := by simp [hu, hreg]
        rw [hstep, ih init]
        have hfilter : ((u :: l').filter fun u' => (reg u').isSome) =
            l'.filter fun u' => (reg u').isSome := by
          simp [List.filter_cons, hreg]
        rw [hfilter]

lemma foldHandler_eq_claimHandler (reg : String → Option Meddler) (f : GoField)
    (hpk : reg "pk" = none) (hid : reg "identity" = some .identity) :
    foldHandler reg f = claimHandler reg f := by
  unfold foldHandler claimHandler
  rw [foldl_handler_eq_getLast reg hpk (dirToks f) (reg "identity")]
  cases hl : ((dirToks f).filter fun u => (reg u).isSome).getLast? <;> simp [hid]

lemma hasDupB_eq_false_iff (l : List String) : hasDupB l = false ↔ l.Nodup := by
  induction l with
  | nil => simp [hasDupB]
  | cons x xs ih =>
    rw [List.nodup_cons, ← ih]
    constructor
    · intro h
      rw [hasDupB_cons] at h
      rcases Bool.or_eq_false_iff.mp h with ⟨h1, h2⟩
      exact ⟨by simpa using h1, h2⟩
    · rintro ⟨h1, h2⟩
      rw [hasDupB_cons]
      refine Bool.or_eq_false_iff.mpr ⟨by simpa using h1, h2⟩

lemma specEntries_find (reg : String → Option Meddler) (fs : List GoField) :
    ∀ (i0 : Nat) (pk : String) (j : Nat) (hj : j < fs.length),
    includedB (fs.get ⟨j, hj⟩) = true →
    (includedNames fs).Nodup →
    ∃ b : Bool,
      findField (specEntries reg fs i0 pk) (resolvedName (fs.get ⟨j, hj⟩)) =
        some ⟨resolvedName (fs.get ⟨j, hj⟩), i0 + j, b,
          foldHandler reg (fs.get ⟨j, hj⟩)⟩ := by
  induction fs with
  | nil =>
    intro i0 pk j hj
    exact absurd hj (by simp)
  | cons f rest ih =>
    intro i0 pk j hj hincj hnd
    cases hf : includedB f with
    | true =>
      have hse : specEntries reg (f :: rest) i0 pk =
          (resolvedName f,
            (⟨resolvedName f, i0,
              resolvedName f == (if "pk" ∈ dirToks f then resolvedName f else pk),
              foldHandler reg f⟩ : StructField)) ::
          specEntries reg rest (i0 + 1)
            (if "pk" ∈ dirToks f then resolvedName f else pk) := by
        simp [specEntries, hf]
      rw [includedNames_cons, if_pos hf] at hnd
      obtain ⟨hnotin, hndrest⟩ := List.nodup_cons.mp hnd
      cases j with
      | zero =>
        refine ⟨resolvedName f == (if "pk" ∈ dirToks f then resolvedName f else pk), ?_⟩
        rw [hse]
        simp [findField]
      | succ j' =>
        have hj' : j' < rest.length := by simpa using hj
        have hget : (f :: rest).get ⟨j' + 1, hj⟩ = rest.get ⟨j', hj'⟩ := rfl
        rw [hget] at hincj ⊢
        have hmem : resolvedName (rest.get ⟨j', hj'⟩) ∈ includedNames rest :=
          (includedNames_mem_iff _ _).mpr ⟨rest.get ⟨j', hj'⟩, List.get_mem _ _ _, hincj, rfl⟩
        have hne : resolvedName f ≠ resolvedName (rest.get ⟨j', hj'⟩) := by
          intro hq
          rw [hq] at hnotin
          exact hnotin hmem
        obtain ⟨b, hb⟩ := ih (i0 + 1) (if "pk" ∈ dirToks f then resolvedName f else pk)
          j' hj' hincj hndrest
        refine ⟨b, ?_⟩
        rw [hse]
        rw [show findField
            ((resolvedName f,
              (⟨resolvedName f, i0,
                resolvedName f == (if "pk" ∈ dirToks f then resolvedName f else pk),
                foldHandler reg f⟩ : StructField)) ::
              specEntries reg rest (i0 + 1)
                (if "pk" ∈ dirToks f then resolvedName f else pk))
            (resolvedName (rest.get ⟨j', hj'⟩)) =
          findField (specEntries reg rest (i0 + 1)
              (if "pk" ∈ dirToks f then resolvedName f else pk))
            (resolvedName (rest.get ⟨j', hj'⟩)) by
          simp only [findField, if_neg hne]]
        rw [hb]
        have harith : i0 + 1 + j' = i0 + (j' + 1) := by omega
        rw [harith]
    | false =>
      have hse : specEntries reg (f :: rest) i0 pk = specEntries reg rest (i0 + 1) pk := by
        simp [specEntries, hf]
      rw [includedNames_cons, if_neg (by simp [hf])] at hnd
      cases j with
      | zero =>
        rw [show (f :: rest).get ⟨0, hj⟩ = f from rfl] at hincj
        rw [hincj] at hf
        cases hf
      | succ j' =>
        have hj' : j' < rest.length := by simpa using hj
        have hget : (f :: rest).get ⟨j' + 1, hj⟩ = rest.get ⟨j', hj'⟩ := rfl
        rw [hget] at hincj ⊢
        obtain ⟨b, hb⟩ := ih (i0 + 1) pk j' hj' hincj hnd
        refine ⟨b, ?_⟩
        rw [hse, hb]
        have harith : i0 + 1 + j' = i0 + (j' + 1) := by omega
        rw [harith]

/-! ### Bridges between the Bool-valued claim conditions and their
propositional forms -/

lemma hasUnknownHandler_iff (reg : String → Option Meddler) (fs : List GoField) :
    hasUnknownHandler reg fs = true ↔
      ∃ f ∈ fs, includedB f = true ∧ ∃ u ∈ dirToks f, u ≠ "pk" ∧ reg u = none := by
  simp [hasUnknownHandler, List.any_eq_true, Bool.and_eq_true, bne_iff_ne,
    Option.isNone_iff_eq_none, and_assoc]

lemma hasBadPkType_iff (fs : List GoField) :
    hasBadPkType fs = true ↔
      ∃ f ∈ fs, includedB f = true ∧ "pk" ∈ dirToks f ∧
        (f.typ.isPtrKind = true ∨ f.typ.isIntKind = false) := by
  simp [hasBadPkType, List.any_eq_true, Bool.and_eq_true, Bool.or_eq_true,
    Bool.not_eq_true', and_assoc]

lemma lookupCache_append_of_none (cache : List (GoType × StructData)) (t : GoType)
    (d : StructData) (h : lookupCache cache t = none) :
    lookupCache (cache ++ [(t, d)]) t = some d := by
  induction cache with
  | nil => simp [lookupCache]
  | cons p rest ih =>
    obtain ⟨t', d'⟩ := p
    by_cases ht : t' = t
    · simp [lookupCache, ht] at h
    · simp only [lookupCache, if_neg ht] at h
      simp only [List.cons_append, lookupCache, if_neg ht]
      exact ih h

/-! ### Row-materializer lemmas -/

lemma targetsLoop_ok_shape (d : StructData) (dst : List Val) :
    ∀ (cols : List String) (ts : List TargetCell),
    targetsLoop d dst cols = .ok ts →
      ts.length = cols.length ∧
      ∀ j (hj : j < cols.length),
        (findField d.fields (cols.get ⟨j, hj⟩) = none →
          ts.getD j .throwaway = .throwaway) ∧
        (∀ fd, findField d.fields (cols.get ⟨j, hj⟩) = some fd →
          ∃ st, ts.getD j .throwaway = .field fd.index st) := by
  intro cols
  induction cols with
  | nil =>
    intro ts h
    have hts : ts = [] := by
      have := h
      simp [targetsLoop] at this
      exact this
    subst hts
    exact ⟨rfl, fun j hj => absurd hj (by simp)⟩
  | cons name rest ih =>
    intro ts h
    cases hff : findField d.fields name with
    | some fd =>
      cases hpre : (match fd.meddler with
          | some m => m.preRead (dst.getD fd.index (.vother 0))
          | none => .error "meddler.Targets: nil meddler") with
      | error e =>
        simp only [targetsLoop, hff, hpre] at h
        simp at h
      | ok st =>
        cases hrest : targetsLoop d dst rest with
        | error e =>
          simp only [targetsLoop, hff, hpre, hrest] at h
          simp at h
        | ok ts' =>
          simp only [targetsLoop, hff, hpre, hrest] at h
          have hts : ts = .field fd.index st :: ts' := by
            simpa using h.symm
          subst hts
          obtain ⟨hlen, hsh⟩ := ih ts' hrest
          refine ⟨by simp [hlen], ?_⟩
          intro j hj
          cases j with
          | zero =>
            constructor
            · intro h0
              rw [show (name :: rest).get ⟨0, hj⟩ = name from rfl] at h0
              rw [h0] at hff
              cases hff
            · intro fd' hfd'
              rw [show (name :: rest).get ⟨0, hj⟩ = name from rfl] at hfd'
              rw [hff] at hfd'
              have : fd = fd' := by simpa using hfd'
              subst this
              exact ⟨st, rfl⟩
          | succ j' =>
            have hj' : j' < rest.length := by simpa using hj
            have hget : (name :: rest).get ⟨j' + 1, hj⟩ = rest.get ⟨j', hj'⟩ := rfl
            rw [hget]
            have := hsh j' hj'
            simpa using this
    | none =>
      cases hrest : targetsLoop d dst rest with
      | error e =>
        simp only [targetsLoop, hff, hrest] at h
        simp at h
      | ok ts' =>
        simp only [targetsLoop, hff, hrest] at h
        have hts : ts = .throwaway :: ts' := by
          simpa using h.symm
        subst hts
        obtain ⟨hlen, hsh⟩ := ih ts' hrest
        refine ⟨by simp [hlen], ?_⟩
        intro j hj
        cases j with
        | zero =>
          constructor
          · intro _
            rfl
          · intro fd' hfd'
            rw [show (name :: rest).get ⟨0, hj⟩ = name from rfl] at hfd'
            rw [hff] at hfd'
            cases hfd'
        | succ j' =>
          have hj' : j' < rest.length := by simpa using hj
          have hget : (name :: rest).get ⟨j' + 1, hj⟩ = rest.get ⟨j', hj'⟩ := rfl
          rw [hget]
          have := hsh j' hj'
          simpa using this

lemma targetsLoop_cells_indices (d : StructData) (dst : List Val) :
    ∀ (cols : List String) (ts : List TargetCell),
    targetsLoop d dst cols = .ok ts →
      ∀ idx st, TargetCell.field idx st ∈ ts → ∃ p ∈ d.fields, p.2.index = idx := by
  intro cols
  induction cols with
  | nil =>
    intro ts h idx st hmem
    have hts : ts = [] := by
      simpa [targetsLoop] using h.symm
    subst hts
    exact absurd hmem (List.not_mem_nil _)
  | cons name rest ih =>
    intro ts h idx st hmem
    cases hff : findField d.fields name with
    | some fd =>
      cases hpre : (match fd.meddler with
          | some m => m.preRead (dst.getD fd.index (.vother 0))
          | none => .error "meddler.Targets: nil meddler") with
      | error e =>
        simp only [targetsLoop, hff, hpre] at h
        simp at h
      | ok st0 =>
        cases hrest : targetsLoop d dst rest with
        | error e =>
          simp only [targetsLoop, hff, hpre, hrest] at h
          simp at h
        | ok ts' =>
          simp only [targetsLoop, hff, hpre, hrest] at h
          have hts : ts = .field fd.index st0 :: ts' := by
            simpa using h.symm
          subst hts
          rcases List.mem_cons.mp hmem with hm | hm
          · injection hm with h1 h2
            exact ⟨(name, fd), findField_mem _ _ _ hff, h1.symm⟩
          · exact ih ts' hrest idx st hm
    | none =>
      cases hrest : targetsLoop d dst rest with
      | error e =>
        simp only [targetsLoop, hff, hrest] at h
        simp at h
      | ok ts' =>
        simp only [targetsLoop, hff, hrest] at h
        have hts : ts = .throwaway :: ts' := by
          simpa using h.symm
        subst hts
        rcases List.mem_cons.mp hmem with hm | hm
        · cases hm
        · exact ih ts' hrest idx st hm

lemma targetsLoop_ok_of_hooks (d : StructData) (dst : List Val) :
    ∀ (cols : List String),
    (∀ name ∈ cols, ∀ fd, findField d.fields name = some fd →
        ∃ m st, fd.meddler = some m ∧
          m.preRead (dst.getD fd.index (.vother 0)) = .ok st) →
      ∃ ts, targetsLoop d dst cols = .ok ts := by
  intro cols
  induction cols with
  | nil => intro _; exact ⟨[], rfl⟩
  | cons name rest ih =>
    intro hyp
    obtain ⟨ts', hts'⟩ := ih fun n hn fd hfd =>
      hyp n (List.mem_cons_of_mem _ hn) fd hfd
    cases hff : findField d.fields name with
    | some fd =>
      obtain ⟨m, st, hm, hok⟩ := hyp name (List.mem_cons_self _ _) fd hff
      refine ⟨.field fd.index st :: ts', ?_⟩
      simp only [targetsLoop, hff, hm, hok, hts']
    | none =>
      refine ⟨.throwaway :: ts', ?_⟩
      simp only [targetsLoop, hff, hts']

lemma applyScan_length :
    ∀ (cs : List TargetCell) (rs : List (Option Val)) (dst dst1 : List Val),
    applyScan dst cs rs = .ok dst1 → dst1.length = dst.length := by
  intro cs
  induction cs with
  | nil =>
    intro rs dst dst1 h
    cases rs with
    | nil =>
      have : dst = dst1 := by simpa [applyScan] using h
      rw [this]
    | cons r rs' => simp [applyScan] at h
  | cons c cs' ih =>
    intro rs dst dst1 h
    cases rs with
    | nil =>
      cases c with
      | field idx st => cases st <;> simp [applyScan] at h
      | throwaway => simp [applyScan] at h
    | cons raw rs' =>
      cases c with
      | field idx st =>
        cases st with
        | direct =>
          cases hsa : scanAssign (dst.getD idx (.vother 0)) raw with
          | error e =>
            simp only [applyScan, hsa] at h
            simp at h
          | ok v =>
            simp only [applyScan, hsa] at h
            have := ih rs' (dst.set idx v) dst1 h
            simpa using this
        | wrapped =>
          simp only [applyScan] at h
          exact ih rs' dst dst1 h
      | throwaway =>
        simp only [applyScan] at h
        exact ih rs' dst dst1 h

lemma applyScan_frame :
    ∀ (cs : List TargetCell) (rs : List (Option Val)) (dst dst1 : List Val),
    applyScan dst cs rs = .ok dst1 →
    ∀ i, (∀ idx st, TargetCell.field idx st ∈ cs → idx ≠ i) →
      dst1.getD i (.vother 0) = dst.getD i (.vother 0) := by
  intro cs
  induction cs with
  | nil =>
    intro rs dst dst1 h i _
    cases rs with
    | nil =>
      have : dst = dst1 := by simpa [applyScan] using h
      rw [this]
    | cons r rs' => simp [applyScan] at h
  | cons c cs' ih =>
    intro rs dst dst1 h i hnotouch
    cases rs with
    | nil =>
      cases c with
      | field idx st => cases st <;> simp [applyScan] at h
      | throwaway => simp [applyScan] at h
    | cons raw rs' =>
      cases c with
      | field idx st =>
        cases st with
        | direct =>
          cases hsa : scanAssign (dst.getD idx (.vother 0)) raw with
          | error e =>
            simp only [applyScan, hsa] at h
            simp at h
          | ok v =>
            simp only [applyScan, hsa] at h
            have hrest := ih rs' (dst.set idx v) dst1 h i
              (fun idx' st' hm => hnotouch idx' st' (List.mem_cons_of_mem _ hm))
            rw [hrest]
            exact getD_set_ne dst idx i v (.vother 0)
              (hnotouch idx .direct (List.mem_cons_self _ _))
        | wrapped =>
          simp only [applyScan] at h
          exact ih rs' dst dst1 h i
            (fun idx' st' hm => hnotouch idx' st' (List.mem_cons_of_mem _ hm))
      | throwaway =>
        simp only [applyScan] at h
        exact ih rs' dst dst1 h i
          (fun idx' st' hm => hnotouch idx' st' (List.mem_cons_of_mem _ hm))

lemma writeLoop_length (d : StructData) :
    ∀ (ns : List String) (cs : List TargetCell) (ws : List (Option Val))
      (dst dst2 : List Val),
    writeLoop d dst ns cs ws = .ok dst2 → dst2.length = dst.length := by
  intro ns
  induction ns with
  | nil =>
    intro cs ws dst dst2 h
    have : dst = dst2 := by simpa [writeLoop] using h
    rw [this]
  | cons name ns' ih =>
    intro cs ws dst dst2 h
    cases cs with
    | nil => simp [writeLoop] at h
    | cons c cs' =>
      cases ws with
      | nil => simp [writeLoop] at h
      | cons w ws' =>
        cases hff : findField d.fields name with
        | some fd =>
          simp only [writeLoop, hff] at h
          split at h
          · simp at h
          · next v heq =>
            have := ih cs' ws' (dst.set fd.index v) dst2 h
            simpa using this
        | none =>
          simp only [writeLoop, hff] at h
          exact ih cs' ws' dst dst2 h

lemma writeLoop_frame (d : StructData) :
    ∀ (ns : List String) (cs : List TargetCell) (ws : List (Option Val))
      (dst dst2 : List Val),
    writeLoop d dst ns cs ws = .ok dst2 →
    ∀ i, (∀ p ∈ d.fields, p.2.index ≠ i) →
      dst2.getD i (.vother 0) = dst.getD i (.vother 0) := by
  intro ns
  induction ns with
  | nil =>
    intro cs ws dst dst2 h i _
    have : dst = dst2 := by simpa [writeLoop] using h
    rw [this]
  | cons name ns' ih =>
    intro cs ws dst dst2 h i hnotouch
    cases cs with
    | nil => simp [writeLoop] at h
    | cons c cs' =>
      cases ws with
      | nil => simp [writeLoop] at h
      | cons w ws' =>
        cases hff : findField d.fields name with
        | some fd =>
          simp only [writeLoop, hff] at h
          split at h
          · simp at h
          · next v heq =>
            have hrest := ih cs' ws' (dst.set fd.index v) dst2 h i hnotouch
            rw [hrest]
            exact getD_set_ne dst fd.index i v (.vother 0)
              (hnotouch (name, fd) (findField_mem _ _ _ hff))
        | none =>
          simp only [writeLoop, hff] at h
          exact ih cs' ws' dst dst2 h i hnotouch

/-- C3: `TimeMeddler.PreWrite` writes NULL exactly when `ZeroIsNull` is set
and the value is the zero time, and otherwise the value converted to UTC;
for a `*time.Time` field a nil pointer also writes NULL. -/
theorem timeMeddler_preWrite_spec (z l : Bool) (t : GoTime) (p : Option GoTime) :
    (Meddler.timeMed z l).preWrite (.vtime t) =
      .ok (if z && t.isZero then none else some (.vtime t.toUTC)) ∧
    (Meddler.timeMed z l).preWrite (.vtimeRef p) =
      .ok (match p with
           | none => none
           | some t' => if z && t'.isZero then none else some (.vtime t'.toUTC)) := by
  constructor
  · simp only [Meddler.preWrite]
    by_cases h : (z && t.isZero) = true <;> simp [h]
  · cases p with
    | none => simp [Meddler.preWrite]
    | some t' =>
      simp only [Meddler.preWrite]
      by_cases h : (z && t'.isZero) = true <;> simp [h]

/-- C4: for int, float and string fields the zero-is-null handler's
write-then-read composition restores the original value: zero goes through
NULL and comes back as zero, a non-zero value comes back unchanged. -/
theorem zeroIsNull_roundTrip (i : Int) (q : ℚ) (s : String) :
    zeroIsNullRoundTrip (.vint i) = .ok (.vint i) ∧
    zeroIsNullRoundTrip (.vfloat q) = .ok (.vfloat q) ∧
    zeroIsNullRoundTrip (.vstr s) = .ok (.vstr s) := by
  refine ⟨?_, ?_, ?_⟩
  · by_cases h : i = 0 <;>
      simp [zeroIsNullRoundTrip, Meddler.preWrite, Meddler.preRead, Meddler.postRead,
        Val.zeroOf, h, Bind.bind, Except.bind]
  · by_cases h : q = 0 <;>
      simp [zeroIsNullRoundTrip, Meddler.preWrite, Meddler.preRead, Meddler.postRead,
        Val.zeroOf, h, Bind.bind, Except.bind]
  · by_cases h : s = "" <;>
      simp [zeroIsNullRoundTrip, Meddler.preWrite, Meddler.preRead, Meddler.postRead,
        Val.zeroOf, h, Bind.bind, Except.bind]

/-- C5: with `ZeroIsNull` set, both read hooks of the time handler fail on
a `*time.Time` (nullable-reference) field, whatever the field's current
value and whatever the scan target holds. -/
theorem timeMeddler_zeroIsNull_ref_read_fails (l : Bool) (p : Option GoTime) (w : Option Val) :
    (Meddler.timeMed true l).preRead (.vtimeRef p) =
      .error "sqlscan.TimeMeddler cannot be used on a *time.Time field, only time.Time" ∧
    (Meddler.timeMed true l).postRead (.vtimeRef p) w =
      .error "sqlscan TimeMeddler cannot be used on a *time.Time field, only time.Time" := by
  exact ⟨by simp [Meddler.preRead], by simp [Meddler.postRead]⟩

lemma schemaErrSpec_struct_iff (reg : String → Option Meddler) (fs : List GoField) :
    schemaErrSpec reg (.ptrToStruct fs) = true ↔
      ((∃ f ∈ fs, includedB f = true ∧ ∃ u ∈ dirToks f, u ≠ "pk" ∧ reg u = none) ∨
       hasDupB (includedNames fs) = true ∨
       1 < pkTokenCount fs ∨
       (∃ f ∈ fs, includedB f = true ∧ "pk" ∈ dirToks f ∧
         (f.typ.isPtrKind = true ∨ f.typ.isIntKind = false))) := by
  simp only [schemaErrSpec, Bool.or_eq_true, decide_eq_true_iff,
    hasUnknownHandler_iff, hasBadPkType_iff, or_assoc]

/-- C1 (amended): metadata derivation (`getFields` in `sqlscan.go`) fails
exactly when the input is not a pointer to a struct, a non-excluded
exported field's annotation names a handler absent from the registry, two
non-excluded exported fields resolve to the same column name, the `pk`
marker occurs more than once in total (repetitions inside one field's
annotation count separately), or a field carrying the `pk` marker has a
pointer type or a non-(signed-)integer type.  Field names are assumed
non-empty, as every legal Go struct guarantees. -/
theorem getFields_err_characterization (reg : String → Option Meddler) (t : GoType)
    (hWF : ∀ f ∈ fieldsOf t, f.name ≠ "") :
    isErr (getFields reg t) = schemaErrSpec reg t := by
  cases t with
  | nonPtr => rfl
  | ptrToNonStruct => rfl
  | ptrToStruct fs =>
    have hWF' : ∀ f ∈ fs, f.name ≠ "" := by simpa [fieldsOf] using hWF
    have hiff := fieldsLoop_err_iff reg fs 0 ⟨[], [], ""⟩ hWF'
    apply Bool.coe_iff_coe.mp
    rw [show getFields reg (.ptrToStruct fs) = fieldsLoop reg fs 0 ⟨[], [], ""⟩ from rfl]
    rw [hiff, schemaErrSpec_struct_iff]
    constructor
    · rintro (h | h | h | h | h)
      · exact Or.inl h
      · exfalso
        obtain ⟨f, _, _, hsome⟩ := h
        simp [findField] at hsome
      · exact Or.inr (Or.inl h)
      · refine Or.inr (Or.inr (Or.inl ?_))
        have h' : 1 < 0 + pkTokenCount fs := h
        omega
      · exact Or.inr (Or.inr (Or.inr h))
    · rintro (h | h | h | h)
      · exact Or.inl h
      · exact Or.inr (Or.inr (Or.inl h))
      · refine Or.inr (Or.inr (Or.inr (Or.inl ?_)))
        show 1 < pkSeen "" + pkTokenCount fs
        have h0 : pkSeen "" = 0 := rfl
        omega
      · exact Or.inr (Or.inr (Or.inr (Or.inr h)))

/-- C1 witness: the characterization applied to a concrete type. -/
theorem getFields_err_characterization_witness :
    (∀ f ∈ fieldsOf pkTwiceType, f.name ≠ "") ∧
    isErr (getFields builtinRegistry pkTwiceType) =
      schemaErrSpec builtinRegistry pkTwiceType :=
  ⟨by decide, getFields_err_characterization builtinRegistry pkTwiceType (by decide)⟩

/-- C1 counterexample: a single field tagged `meddler:"id,pk,pk"` makes
`getFields` fail ("a primary key field was already found") although no
condition of the claim holds — in particular only one field carries the
`pk` marker, so the claim as stated predicts success. -/
theorem pk_marker_repeated_counterexample :
    getFields builtinRegistry pkTwiceType =
      .error ("meddler found field ID which is marked as the primary key, " ++
        "but a primary key field was already found") ∧
    schemaErrSpecOrig builtinRegistry pkTwiceType = false := by
  exact ⟨rfl, rfl⟩

/-- C2: on a successful derivation, the column name of each non-excluded
exported field is the text before the first comma of its annotation (the
declared field name when that text is empty), the ordered column list
lists the resolved names in declaration order, and each field's handler is
the last directive token that is a registered handler name (identity when
there is none).  `reg "pk" = none` holds for the real registry because
`Register` refuses the name `"pk"`. -/
theorem annotation_parsing_spec (reg : String → Option Meddler) (fields : List GoField)
    (d : StructData)
    (hWF : ∀ f ∈ fields, f.name ≠ "")
    (hpk : reg "pk" = none) (hid : reg "identity" = some .identity)
    (h : getFields reg (.ptrToStruct fields) = .ok d) :
    d.columns = includedNames fields ∧
    ∀ j (hj : j < fields.length),
      includedB (fields.get ⟨j, hj⟩) = true →
      ∃ fd, findField d.fields (resolvedName (fields.get ⟨j, hj⟩)) = some fd ∧
        fd.column = resolvedName (fields.get ⟨j, hj⟩) ∧
        fd.index = j ∧
        fd.meddler = claimHandler reg (fields.get ⟨j, hj⟩) := by
  obtain ⟨h1, h2, _⟩ := fieldsLoop_ok_spec reg fields 0 ⟨[], [], ""⟩ d h
  replace h1 : d.columns = includedNames fields := by simpa using h1
  replace h2 : d.fields = specEntries reg fields 0 "" := by simpa using h2
  have hnd : (includedNames fields).Nodup := by
    have herr := fieldsLoop_err_iff reg fields 0 ⟨[], [], ""⟩ hWF
    rcases Bool.eq_false_or_eq_true (hasDupB (includedNames fields)) with hq | hq
    · exfalso
      have hbad := herr.mpr (Or.inr (Or.inr (Or.inl hq)))
      rw [show fieldsLoop reg fields 0 ⟨[], [], ""⟩ =
        getFields reg (.ptrToStruct fields) from rfl, h] at hbad
      simp [isErr] at hbad
    · exact (hasDupB_eq_false_iff _).mp hq
  refine ⟨h1, ?_⟩
  intro j hj hincj
  obtain ⟨b, hb⟩ := specEntries_find reg fields 0 "" j hj hincj hnd
  rw [Nat.zero_add] at hb
  refine ⟨⟨resolvedName (fields.get ⟨j, hj⟩), j, b,
    foldHandler reg (fields.get ⟨j, hj⟩)⟩, ?_, rfl, rfl, ?_⟩
  · rw [h2]
    exact hb
  · exact foldHandler_eq_claimHandler reg _ hpk hid

/-- C2 witness: the parsing characterization applied to a concrete type. -/
theorem annotation_parsing_spec_witness :
    (∀ f ∈ ([⟨"ID", "", "id,pk", .fint64⟩,
             ⟨"When", "", "ts,localtime,utctimez", .ftime⟩] : List GoField), f.name ≠ "") ∧
    builtinRegistry "pk" = none ∧
    builtinRegistry "identity" = some .identity ∧
    getFields builtinRegistry (.ptrToStruct
        [⟨"ID", "", "id,pk", .fint64⟩, ⟨"When", "", "ts,localtime,utctimez", .ftime⟩]) =
      .ok ⟨["id", "ts"],
        [("id", ⟨"id", 0, true, some .identity⟩),
         ("ts", ⟨"ts", 1, false, some (.timeMed true false)⟩)], "id"⟩ ∧
    ((⟨["id", "ts"],
        [("id", ⟨"id", 0, true, some .identity⟩),
         ("ts", ⟨"ts", 1, false, some (.timeMed true false)⟩)], "id"⟩ : StructData).columns =
      includedNames
        [⟨"ID", "", "id,pk", .fint64⟩, ⟨"When", "", "ts,localtime,utctimez", .ftime⟩] ∧
     ∀ j (hj : j < ([⟨"ID", "", "id,pk", .fint64⟩,
         ⟨"When", "", "ts,localtime,utctimez", .ftime⟩] : List GoField).length),
       includedB (([⟨"ID", "", "id,pk", .fint64⟩,
           ⟨"When", "", "ts,localtime,utctimez", .ftime⟩] : List GoField).get ⟨j, hj⟩) = true →
       ∃ fd, findField (⟨["id", "ts"],
           [("id", ⟨"id", 0, true, some .identity⟩),
            ("ts", ⟨"ts", 1, false, some (.timeMed true false)⟩)], "id"⟩ : StructData).fields
           (resolvedName (([⟨"ID", "", "id,pk", .fint64⟩,
             ⟨"When", "", "ts,localtime,utctimez", .ftime⟩] : List GoField).get ⟨j, hj⟩)) =
           some fd ∧
         fd.column = resolvedName (([⟨"ID", "", "id,pk", .fint64⟩,
           ⟨"When", "", "ts,localtime,utctimez", .ftime⟩] : List GoField).get ⟨j, hj⟩) ∧
         fd.index = j ∧
         fd.meddler = claimHandler builtinRegistry
           (([⟨"ID", "", "id,pk", .fint64⟩,
             ⟨"When", "", "ts,localtime,utctimez", .ftime⟩] : List GoField).get ⟨j, hj⟩)) :=
  ⟨by decide, rfl, rfl, rfl,
    annotation_parsing_spec builtinRegistry _ _ (by decide) rfl rfl rfl⟩

/-- C6 counterexample: a pointer-typed field annotated `zeroisnull` is NOT
rejected at metadata-extraction time — `getFields` succeeds and attaches
the zero-is-null handler to the field.  (The extraction-time rejection
exists only in the historical `sqlmarshal` variant of `getFields`.) -/
theorem zeroisnull_pointer_accepted_counterexample :
    getFields builtinRegistry zeroNullPtrType =
      .ok ⟨["p"], [("p", ⟨"p", 0, false, some .zeroIsNull⟩)], ""⟩ := rfl

/-- C6 (amended): a pointer-typed field annotated with the zero-is-null
handler passes metadata derivation; the combination is rejected only at
write time, when `ZeroIsNullMeddler.PreWrite` hits its default case and
returns an error for any pointer-typed value. -/
theorem zeroisnull_pointer_rejected_at_write :
    isErr (getFields builtinRegistry zeroNullPtrType) = false ∧
    (∀ isNil : Bool, Meddler.zeroIsNull.preWrite (.vptr isNil) =
      .error "ZeroIsNullMeddler.PreWrite: unknown struct field type") ∧
    (∀ p : Option GoTime, Meddler.zeroIsNull.preWrite (.vtimeRef p) =
      .error "ZeroIsNullMeddler.PreWrite: unknown struct field type") :=
  ⟨rfl, fun _ => rfl, fun _ => rfl⟩

/-- C7: with derived metadata in hand and a result-set column list that is
a superset of the mapped columns, (a) `Targets` succeeds as soon as every
mapped column's `PreRead` succeeds — unmatched columns never cause a
failure; (b) every unmatched result column receives a throwaway target
whose value is discarded; (c) the scan-and-post-process pipeline writes
only struct fields some descriptor points at: all other fields keep their
previous values. -/
theorem extra_columns_ignored (reg : String → Option Meddler) (t : GoType)
    (dst : List Val) (cols : List String) (d : StructData)
    (hd : getFields reg t = .ok d)
    (hsup : ∀ c ∈ d.columns, c ∈ cols) :
    ((∀ name ∈ cols, ∀ fd, findField d.fields name = some fd →
        ∃ m st, fd.meddler = some m ∧
          m.preRead (dst.getD fd.index (.vother 0)) = .ok st) →
      ∃ ts, Targets reg t dst cols = .ok ts) ∧
    (∀ ts, Targets reg t dst cols = .ok ts →
      ts.length = cols.length ∧
      ∀ j (hj : j < cols.length),
        findField d.fields (cols.get ⟨j, hj⟩) = none →
          ts.getD j .throwaway = .throwaway) ∧
    (∀ ts dst1 dst2 row,
      Targets reg t dst cols = .ok ts →
      applyScan dst ts row = .ok dst1 →
      WriteTargets reg t dst1 cols ts row = .ok dst2 →
      dst2.length = dst.length ∧
      ∀ i, (∀ p ∈ d.fields, p.2.index ≠ i) →
        dst2.getD i (.vother 0) = dst.getD i (.vother 0)) := by
  refine ⟨?_, ?_, ?_⟩
  · intro hyp
    obtain ⟨ts, hts⟩ := targetsLoop_ok_of_hooks d dst cols hyp
    exact ⟨ts, by simp [Targets, hd, hts]⟩
  · intro ts hts
    have hts' : targetsLoop d dst cols = .ok ts := by simpa [Targets, hd] using hts
    obtain ⟨hlen, hsh⟩ := targetsLoop_ok_shape d dst cols ts hts'
    exact ⟨hlen, fun j hj hnone => (hsh j hj).1 hnone⟩
  · intro ts dst1 dst2 row hts hsc hwt
    have hts' : targetsLoop d dst cols = .ok ts := by simpa [Targets, hd] using hts
    have hlen : ts.length = cols.length := (targetsLoop_ok_shape d dst cols ts hts').1
    have hwt' : writeLoop d dst1 cols ts row = .ok dst2 := by
      simpa [WriteTargets, hd, hlen] using hwt
    constructor
    · rw [writeLoop_length d cols ts row dst1 dst2 hwt',
        applyScan_length ts row dst dst1 hsc]
    · intro i hno
      have h2 := writeLoop_frame d cols ts row dst1 dst2 hwt' i hno
      have h1 := applyScan_frame ts row dst dst1 hsc i ?_
      · rw [h2, h1]
      · intro idx st hm
        obtain ⟨p, hp, hpi⟩ := targetsLoop_cells_indices d dst cols ts hts' idx st hm
        rw [← hpi]
        exact hno p hp

/-- C7 witness: the theorem applied to a concrete struct, destination and
column list with one extra column. -/
theorem extra_columns_ignored_witness :
    getFields builtinRegistry (.ptrToStruct [⟨"ID", "", "id", .fint64⟩]) =
      .ok ⟨["id"], [("id", ⟨"id", 0, false, some .identity⟩)], ""⟩ ∧
    (∀ c ∈ (⟨["id"], [("id", ⟨"id", 0, false, some .identity⟩)], ""⟩ : StructData).columns,
      c ∈ ["id", "extra"]) ∧
    (((∀ name ∈ ["id", "extra"], ∀ fd,
        findField (⟨["id"], [("id", ⟨"id", 0, false, some .identity⟩)],
          ""⟩ : StructData).fields name = some fd →
        ∃ m st, fd.meddler = some m ∧
          m.preRead (([.vint 5] : List Val).getD fd.index (.vother 0)) = .ok st) →
      ∃ ts, Targets builtinRegistry (.ptrToStruct [⟨"ID", "", "id", .fint64⟩])
        [.vint 5] ["id", "extra"] = .ok ts) ∧
     (∀ ts, Targets builtinRegistry (.ptrToStruct [⟨"ID", "", "id", .fint64⟩])
        [.vint 5] ["id", "extra"] = .ok ts →
      ts.length = (["id", "extra"] : List String).length ∧
      ∀ j (hj : j < (["id", "extra"] : List String).length),
        findField (⟨["id"], [("id", ⟨"id", 0, false, some .identity⟩)],
          ""⟩ : StructData).fields ((["id", "extra"] : List String).get ⟨j, hj⟩) = none →
          ts.getD j .throwaway = .throwaway) ∧
     (∀ ts dst1 dst2 row,
      Targets builtinRegistry (.ptrToStruct [⟨"ID", "", "id", .fint64⟩])
        [.vint 5] ["id", "extra"] = .ok ts →
      applyScan [.vint 5] ts row = .ok dst1 →
      WriteTargets builtinRegistry (.ptrToStruct [⟨"ID", "", "id", .fint64⟩])
        dst1 ["id", "extra"] ts row = .ok dst2 →
      dst2.length = ([.vint 5] : List Val).length ∧
      ∀ i, (∀ p ∈ (⟨["id"], [("id", ⟨"id", 0, false, some .identity⟩)],
          ""⟩ : StructData).fields, p.2.index ≠ i) →
        dst2.getD i (.vother 0) = ([.vint 5] : List Val).getD i (.vother 0))) :=
  ⟨rfl, by decide,
    extra_columns_ignored builtinRegistry _ [.vint 5] ["id", "extra"] _ rfl (by decide)⟩

/-- C8: with no pending row, the single-row read path returns the
underlying fetch's error when it reports one and `sql.ErrNoRows`
otherwise; the batch read path turns the no-rows condition into normal
termination, so zero rows yield an empty sequence and no error. -/
theorem noRows_semantics (reg : String → Option Meddler) (t : GoType) (st : RowsState)
    (dst : List Val) (d : StructData)
    (hempty : st.pending = [])
    (hd : getFields reg t = .ok d) :
    (scanRow reg t st dst).1 =
      (match st.trailingErr with
       | some e => .error (.hard e)
       | none => .error .noRows) ∧
    (st.trailingErr = none → ScanAll reg t st [] = .ok []) := by
  obtain ⟨pending, terr, cols⟩ := st
  replace hempty : pending = [] := hempty
  subst hempty
  constructor
  · rfl
  · intro hterr
    replace hterr : terr = none := hterr
    subst hterr
    simp [ScanAll, hd, scanAllLoop, scanRow]

/-- C8 witness: the no-rows semantics at a concrete type and result set. -/
theorem noRows_semantics_witness :
    ((⟨[], none, ["id"]⟩ : RowsState).pending = []) ∧
    getFields builtinRegistry (.ptrToStruct [⟨"ID", "", "id", .fint64⟩]) =
      .ok ⟨["id"], [("id", ⟨"id", 0, false, some .identity⟩)], ""⟩ ∧
    ((scanRow builtinRegistry (.ptrToStruct [⟨"ID", "", "id", .fint64⟩])
        ⟨[], none, ["id"]⟩ [.vint 0]).1 =
      (match (⟨[], none, ["id"]⟩ : RowsState).trailingErr with
       | some e => .error (.hard e)
       | none => .error .noRows) ∧
     ((⟨[], none, ["id"]⟩ : RowsState).trailingErr = none →
      ScanAll builtinRegistry (.ptrToStruct [⟨"ID", "", "id", .fint64⟩])
        ⟨[], none, ["id"]⟩ [] = .ok [])) :=
  ⟨rfl, rfl, noRows_semantics builtinRegistry _ _ [.vint 0] _ rfl rfl⟩

/-- C9: a failed derivation stores nothing in the cache — the cache is
returned unchanged, so the next call runs the identical computation and
fails with the identical error; only a successful result is memoized
(afterwards, looking the type up in the returned cache yields it). -/
theorem failed_derivation_not_cached (reg : String → Option Meddler)
    (cache : List (GoType × StructData)) (t : GoType) :
    (∀ e, (getFieldsCached reg cache t).1 = .error e →
      (getFieldsCached reg cache t).2 = cache ∧
      getFieldsCached reg ((getFieldsCached reg cache t).2) t = (.error e, cache)) ∧
    (∀ d, (getFieldsCached reg cache t).1 = .ok d →
      lookupCache (getFieldsCached reg cache t).2 t = some d) := by
  cases hc : lookupCache cache t with
  | some d0 =>
    have hcall : getFieldsCached reg cache t = (.ok d0, cache) := by
      simp [getFieldsCached, hc]
    rw [hcall]
    constructor
    · intro e he
      simp at he
    · intro d hd
      have hdd : d0 = d := by simpa using hd
      subst hdd
      exact hc
  | none =>
    cases hg : getFields reg t with
    | error e0 =>
      have hcall : getFieldsCached reg cache t = (.error e0, cache) := by
        simp [getFieldsCached, hc, hg]
      rw [hcall]
      constructor
      · intro e he
        have he' : e0 = e := by simpa using he
        subst he'
        exact ⟨rfl, hcall⟩
      · intro d hd
        simp at hd
    | ok d0 =>
      have hcall : getFieldsCached reg cache t = (.ok d0, cache ++ [(t, d0)]) := by
        simp [getFieldsCached, hc, hg]
      rw [hcall]
      constructor
      · intro e he
        simp at he
      · intro d hd
        have hdd : d0 = d := by simpa using hd
        subst hdd
        exact lookupCache_append_of_none cache t d0 hc

/-- C9 witness: a failing type (a non-pointer destination) leaves the
empty cache unchanged and fails identically on the next call. -/
theorem failed_derivation_not_cached_witness :
    (getFieldsCached builtinRegistry [] .nonPtr).1 =
      .error "meddler called with non-pointer destination" ∧
    ((getFieldsCached builtinRegistry [] .nonPtr).2 = [] ∧
     getFieldsCached builtinRegistry
       ((getFieldsCached builtinRegistry [] .nonPtr).2) .nonPtr =
       (.error "meddler called with non-pointer destination", [])) :=
  ⟨rfl, (failed_derivation_not_cached builtinRegistry [] .nonPtr).1 _ rfl⟩

/-- C10: every successfully derived metadata satisfies the structural
invariant: the ordered column list has no duplicates and equals (as a
list) the key list of the by-name map, every descriptor carries its own
key as its column, and when the primary-key name is non-empty it is one of
the columns and exactly one descriptor has the primary-key flag set. -/
theorem metadata_invariants (reg : String → Option Meddler) (t : GoType) (d : StructData)
    (hWF : ∀ f ∈ fieldsOf t, f.name ≠ "")
    (h : getFields reg t = .ok d) :
    d.columns.Nodup ∧
    d.fields.map Prod.fst = d.columns ∧
    (∀ p ∈ d.fields, p.2.column = p.1) ∧
    (d.pk ≠ "" → d.pk ∈ d.columns ∧
      (d.fields.filter fun p => p.2.primaryKey).length = 1) := by
  cases t with
  | nonPtr => simp [getFields] at h
  | ptrToNonStruct => simp [getFields] at h
  | ptrToStruct fs =>
    have hWF' : ∀ f ∈ fs, f.name ≠ "" := by simpa [fieldsOf] using hWF
    obtain ⟨a, b, c, e, g⟩ := fieldsLoop_ok_inv reg fs 0 ⟨[], [], ""⟩ d hWF'
      List.nodup_nil rfl (by intro p hp; simp at hp) (fun hq => absurd rfl hq) rfl h
    refine ⟨a, b, c, fun hne => ⟨e hne, ?_⟩⟩
    rw [g]
    exact if_neg hne

/-- C10 witness: the invariants at a concrete derived metadata value. -/
theorem metadata_invariants_witness :
    (∀ f ∈ fieldsOf (.ptrToStruct
        [⟨"ID", "", "id,pk", .fint64⟩, ⟨"When", "", "ts,localtime,utctimez", .ftime⟩]),
      f.name ≠ "") ∧
    getFields builtinRegistry (.ptrToStruct
        [⟨"ID", "", "id,pk", .fint64⟩, ⟨"When", "", "ts,localtime,utctimez", .ftime⟩]) =
      .ok ⟨["id", "ts"],
        [("id", ⟨"id", 0, true, some .identity⟩),
         ("ts", ⟨"ts", 1, false, some (.timeMed true false)⟩)], "id"⟩ ∧
    ((["id", "ts"] : List String).Nodup ∧
     ([("id", (⟨"id", 0, true, some .identity⟩ : StructField)),
       ("ts", ⟨"ts", 1, false, some (.timeMed true false)⟩)].map Prod.fst =
        ["id", "ts"]) ∧
     (∀ p ∈ [("id", (⟨"id", 0, true, some .identity⟩ : StructField)),
         ("ts", ⟨"ts", 1, false, some (.timeMed true false)⟩)], p.2.column = p.1) ∧
     (("id" : String) ≠ "" → ("id" : String) ∈ (["id", "ts"] : List String) ∧
       ([("id", (⟨"id", 0, true, some .identity⟩ : StructField)),
         ("ts", ⟨"ts", 1, false, some (.timeMed true false)⟩)].filter
           fun p => p.2.primaryKey).length = 1)) := by
  refine ⟨by decide, rfl, ?_⟩
  have := metadata_invariants builtinRegistry (.ptrToStruct
      [⟨"ID", "", "id,pk", .fint64⟩, ⟨"When", "", "ts,localtime,utctimez", .ftime⟩])
    ⟨["id", "ts"],
      [("id", ⟨"id", 0, true, some .identity⟩),
       ("ts", ⟨"ts", 1, false, some (.timeMed true false)⟩)], "id"⟩
    (by decide) rfl
  exact this

end MeddlerSpec
